import Mathlib

/-!
Verification development for the node agent (`node_agent.py`).

The agent keeps an Xray proxy configuration file synchronized with a control
plane: `XrayConfigManager` owns the persisted JSON document and a process-wide
`config_needs_reload` flag, `NodeAgent.sync_users` reconciles the desired user
set against the observed one, `NodeAgent.reload_xray_loop` restarts the proxy
on a fixed cadence when the flag is set, and `NodeAgent.sync_traffic` parses
raw stats records into per-user traffic counters.

Modelling conventions:
* JSON documents are modelled by the first-order type `JVal`; arrays and
  objects are cons-chains (`arrCons`/`objCons`) so that all recursion is
  structural and every definition evaluates in the kernel.  JSON numbers are
  modelled as integers (every number appearing in the agent is one).
* Python exceptions are modelled by the `Except Unit` monad `PyM`: a
  computation returns `.error ()` exactly where the Python code raises, and
  each top-level method catches (its `try`/`except`) and maps the error to the
  source's fallback result.
* File input/output is modelled by `XrayConfigManager.file : Option JVal`
  (`none` = the file is missing, unreadable, or malformed JSON) together with
  a write-success oracle `writeOk : JVal → Bool` standing for the outcome of
  `write_config`'s file write.
-/

/-- JSON values, first-order: `arrCons h t` is the array with head `h` and
tail array `t`; `objCons k v t` is the object with first field `(k, v)` and
remaining fields `t`. -/
inductive JVal where
  | null
  | bool (b : Bool)
  | num (n : Int)
  | str (s : String)
  | arrNil
  | arrCons (hd tl : JVal)
  | objNil
  | objCons (key : String) (val tl : JVal)
deriving DecidableEq, Repr

/-- Elements of an array chain as a Lean list (empty for non-arrays). -/
def JVal.alist : JVal → List JVal
  | .arrCons h t => h :: t.alist
  | _ => []

/-- Fields of an object chain as a Lean association list (empty otherwise). -/
def JVal.olist : JVal → List (String × JVal)
  | .objCons k v t => (k, v) :: t.olist
  | _ => []

/-- Build an array value from a list. -/
def jarr : List JVal → JVal
  | [] => .arrNil
  | v :: vs => .arrCons v (jarr vs)

/-- Build an object value from an association list. -/
def jobj : List (String × JVal) → JVal
  | [] => .objNil
  | (k, v) :: fs => .objCons k v (jobj fs)

/-- First-field lookup, the semantics of Python `dict` indexing (JSON objects
produced by `json.load` have unique keys). -/
def lookupField : List (String × JVal) → String → Option JVal
  | [], _ => none
  | (k2, v) :: fs, k => if k2 = k then some v else lookupField fs k

/-- Python `d[k] = v` on a dict: replace the existing key in place, otherwise
append the new field at the end (dict insertion order). -/
def setField : List (String × JVal) → String → JVal → List (String × JVal)
  | [], k, v => [(k, v)]
  | (k2, v2) :: fs, k, v =>
      if k2 = k then (k, v) :: fs else (k2, v2) :: setField fs k v

/-- Whether the value is a JSON object (a Python dict). -/
def JVal.isObjHead : JVal → Bool
  | .objNil => true
  | .objCons .. => true
  | _ => false

/-- Whether the value is a JSON array (a Python list). -/
def JVal.isArrHead : JVal → Bool
  | .arrNil => true
  | .arrCons .. => true
  | _ => false

/-- Python truthiness of a JSON value. -/
def JVal.truthy : JVal → Bool
  | .null => false
  | .bool b => b
  | .num n => n != 0
  | .str s => s != ""
  | .arrNil => false
  | .arrCons .. => true
  | .objNil => false
  | .objCons .. => true

/-- Exception monad standing for Python exceptions: `.error ()` at exactly the
points where the source raises. -/
abbrev PyM := Except Unit

/-- Decidable equality of `Except` results, so concrete runs can be checked by
`decide`. -/
instance {ε α : Type} [DecidableEq ε] [DecidableEq α] : DecidableEq (Except ε α) := fun a b =>
  match a, b with
  | .error e, .error e2 =>
      if h : e = e2 then .isTrue (by rw [h]) else .isFalse (by simp [h])
  | .error _, .ok _ => .isFalse (by simp)
  | .ok _, .error _ => .isFalse (by simp)
  | .ok v, .ok v2 =>
      if h : v = v2 then .isTrue (by rw [h]) else .isFalse (by simp [h])

/-- Python `v.get(k, d)`: field lookup with default; raises (`AttributeError`)
when `v` is not a dict. -/
def pyGetD (v : JVal) (k : String) (d : JVal) : PyM JVal :=
  if v.isObjHead then .ok ((lookupField v.olist k).getD d) else .error ()

/-- Python iteration `for x in v`: a list yields its elements, a dict its keys,
a string its one-character substrings; other values raise `TypeError`. -/
def pyIter (v : JVal) : PyM (List JVal) :=
  if v.isArrHead then .ok v.alist
  else if v.isObjHead then .ok (v.olist.map (fun p => .str p.1))
  else
    match v with
    | .str s => .ok (s.toList.map (fun c => .str c.toString))
    | _ => .error ()

/-- Python `len(v)`; raises for values without a length. -/
def pyLen (v : JVal) : PyM Nat :=
  if v.isArrHead then .ok v.alist.length
  else if v.isObjHead then .ok v.olist.length
  else
    match v with
    | .str s => .ok s.length
    | _ => .error ()

/-- Python `v[0]`; defined for nonempty lists and strings, raising otherwise
(`IndexError` / `KeyError` / `TypeError`). -/
def pyIndexZero (v : JVal) : PyM JVal :=
  match v with
  | .arrCons h _ => .ok h
  | .str s =>
      match s.toList with
      | c :: _ => .ok (.str c.toString)
      | [] => .error ()
  | _ => .error ()

/-- Python slicing `v[:8]` succeeds only on sequences (strings and lists);
the sliced value itself is used only in a log line. -/
def pySliceOk (v : JVal) : PyM Unit :=
  match v with
  | .str _ => .ok ()
  | v => if v.isArrHead then .ok () else .error ()

/-- State of `XrayConfigManager` together with the persisted configuration
file: `file = none` models a missing, unreadable or malformed file;
`config_needs_reload` is the Dirty Flag set in `__init__` to `False`. -/
structure XrayConfigManager where
  file : Option JVal
  config_needs_reload : Bool
deriving DecidableEq, Repr

/-- Lines 31-38: `read_config` parses the file and returns `{}` on any
exception (unreadable or malformed file) instead of raising. -/
def read_config (st : XrayConfigManager) : JVal :=
  match st.file with
  | some doc => doc
  | none => .objNil

/-- Lines 40-48: `write_config` dumps `config` to the file and returns whether
the write succeeded; on failure the file is not replaced.  `writeOk` is the
oracle for the outcome of the file write. -/
def write_config (writeOk : JVal → Bool) (st : XrayConfigManager) (config : JVal) :
    Bool × XrayConfigManager :=
  if writeOk config then (true, { st with file := some config }) else (false, st)

/-- Lines 58: the set comprehension
`{client.get('id') for client in clients if client.get('id')}`. -/
def client_id_set : List JVal → PyM (Finset JVal)
  | [] => .ok ∅
  | c :: cs => do
    let idv ← pyGetD c "id" .null
    let rest ← client_id_set cs
    .ok (if idv.truthy then insert idv rest else rest)

/-- Lines 55-60: the `for inbound in inbounds` loop of `get_inbound_users`,
returning the id set of the first inbound whose tag matches. -/
def get_inbound_users_go (inbound_tag : String) : List JVal → PyM (Finset JVal)
  | [] => .ok ∅
  | ib :: rest => do
    let t ← pyGetD ib "tag" .null
    if t = .str inbound_tag then do
      let s ← pyGetD ib "settings" (jobj [])
      let cl ← pyGetD s "clients" (jarr [])
      let cs ← pyIter cl
      client_id_set cs
    else get_inbound_users_go inbound_tag rest

/-- Lines 50-60: `get_inbound_users` (no `try`/`except` of its own, so errors
propagate to the caller). -/
def get_inbound_users (st : XrayConfigManager) (inbound_tag : String) : PyM (Finset JVal) := do
  let config := read_config st
  let inbounds ← pyGetD config "inbounds" (jarr [])
  let ibs ← pyIter inbounds
  get_inbound_users_go inbound_tag ibs

/-- Line 76: `any(client.get('id') == user_uuid for client in clients)`,
short-circuiting like Python `any`. -/
def any_id_matches (user_uuid : JVal) : List JVal → PyM Bool
  | [] => .ok false
  | c :: cs => do
    let idv ← pyGetD c "id" .null
    if idv = user_uuid then .ok true else any_id_matches user_uuid cs

/-- Lines 68-97: the `for inbound in inbounds` loop of `add_user`.
Result: `none` = tag not found; `some none` = duplicate user, return `True`
without writing; `some (some ibs)` = new inbound list to write.  The in-place
creation of missing `settings`/`clients` keys (lines 70-73) only matters on
the path that writes, so it is folded into the rebuilt inbound; a non-dict
`settings` or non-list `clients` value raises in the source (item assignment
or iteration/append on the wrong type) and is an error here. -/
def add_user_loop (inbound_tag : String) (user_uuid email : JVal) :
    List JVal → PyM (Option (Option (List JVal)))
  | [] => .ok none
  | ib :: rest => do
    let t ← pyGetD ib "tag" .null
    if t = .str inbound_tag then
      let sv := (lookupField ib.olist "settings").getD (jobj [])
      if sv.isObjHead then
        let cv := (lookupField sv.olist "clients").getD (jarr [])
        if cv.isArrHead then do
          let dup ← any_id_matches user_uuid cv.alist
          if dup then .ok (some none)
          else
            let new_client := jobj [("id", user_uuid),
              ("email", if email.truthy then email else user_uuid),
              ("level", .num 0), ("flow", .str "xtls-rprx-vision")]
            let sv2 := jobj (setField sv.olist "clients" (jarr (cv.alist ++ [new_client])))
            let ib2 := jobj (setField ib.olist "settings" sv2)
            .ok (some (some (ib2 :: rest)))
        else .error ()
      else .error ()
    else do
      let r ← add_user_loop inbound_tag user_uuid email rest
      match r with
      | some (some ibs2) => .ok (some (some (ib :: ibs2)))
      | other => .ok other

/-- Lines 62-101 before the `except`: body of `add_user`. -/
def add_user_go (writeOk : JVal → Bool) (st : XrayConfigManager)
    (inbound_tag : String) (user_uuid email : JVal) : PyM (Bool × XrayConfigManager) := do
  let config := read_config st
  let inbounds ← pyGetD config "inbounds" (jarr [])
  let ibs ← pyIter inbounds
  match ← add_user_loop inbound_tag user_uuid email ibs with
  | none => .ok (false, st)
  | some none => .ok (true, st)
  | some (some ibs2) =>
      let config2 := jobj (setField config.olist "inbounds" (jarr ibs2))
      let (ok, st2) := write_config writeOk st config2
      if ok then .ok (true, { st2 with config_needs_reload := true })
      else .ok (false, st2)

/-- Lines 62-101: `add_user`; the `except` clause returns `False`. -/
def add_user (writeOk : JVal → Bool) (st : XrayConfigManager)
    (inbound_tag : String) (user_uuid email : JVal) : Bool × XrayConfigManager :=
  match add_user_go writeOk st inbound_tag user_uuid email with
  | .error _ => (false, st)
  | .ok r => r

/-- Lines 122-125: the list comprehension keeping clients whose id differs
from `user_uuid`; `client.get('id')` raises on non-dict clients. -/
def remove_filter (user_uuid : JVal) : List JVal → PyM (List JVal)
  | [] => .ok []
  | c :: cs => do
    let idv ← pyGetD c "id" .null
    let rest ← remove_filter user_uuid cs
    .ok (if idv = user_uuid then rest else c :: rest)

/-- Lines 110-140: the `for inbound in inbounds` loop of `remove_user`.
Result: `none` = tag not found; `some none` = user absent, return `True`
without writing; `some (some ibs)` = new inbound list to write.  The
email-lookup loop (lines 115-118) only feeds a log message and raises exactly
where the comprehension does, so it is omitted.  The assignment
`inbound['settings']['clients'] = ...` (line 122) raises `KeyError` when the
inbound has no `settings` key. -/
def remove_user_loop (inbound_tag : String) (user_uuid : JVal) :
    List JVal → PyM (Option (Option (List JVal)))
  | [] => .ok none
  | ib :: rest => do
    let t ← pyGetD ib "tag" .null
    if t = .str inbound_tag then do
      let s ← pyGetD ib "settings" (jobj [])
      let cl ← pyGetD s "clients" (jarr [])
      let cs ← pyIter cl
      let original_count ← pyLen cl
      let filtered ← remove_filter user_uuid cs
      match lookupField ib.olist "settings" with
      | none => .error ()
      | some sv =>
        if sv.isObjHead then
          if filtered.length < original_count then
            let sv2 := jobj (setField sv.olist "clients" (jarr filtered))
            let ib2 := jobj (setField ib.olist "settings" sv2)
            .ok (some (some (ib2 :: rest)))
          else .ok (some none)
        else .error ()
    else do
      let r ← remove_user_loop inbound_tag user_uuid rest
      match r with
      | some (some ibs2) => .ok (some (some (ib :: ibs2)))
      | other => .ok other

/-- Lines 103-144 before the `except`: body of `remove_user`. -/
def remove_user_go (writeOk : JVal → Bool) (st : XrayConfigManager)
    (inbound_tag : String) (user_uuid : JVal) : PyM (Bool × XrayConfigManager) := do
  let config := read_config st
  let inbounds ← pyGetD config "inbounds" (jarr [])
  let ibs ← pyIter inbounds
  match ← remove_user_loop inbound_tag user_uuid ibs with
  | none => .ok (false, st)
  | some none => .ok (true, st)
  | some (some ibs2) =>
      let config2 := jobj (setField config.olist "inbounds" (jarr ibs2))
      let (ok, st2) := write_config writeOk st config2
      if ok then .ok (true, { st2 with config_needs_reload := true })
      else .ok (false, st2)

/-- Lines 103-144: `remove_user`; the `except` clause returns `False`. -/
def remove_user (writeOk : JVal → Bool) (st : XrayConfigManager)
    (inbound_tag : String) (user_uuid : JVal) : Bool × XrayConfigManager :=
  match remove_user_go writeOk st inbound_tag user_uuid with
  | .error _ => (false, st)
  | .ok r => r

/-- Lines 283-290: the computation of `current_sni` inside `update_sni` (the
first entry of `streamSettings.realitySettings.serverNames`, or `None`). -/
def current_sni_of (ib : JVal) : PyM (Option JVal) := do
  let stream_settings ← pyGetD ib "streamSettings" (jobj [])
  let reality_settings ← pyGetD stream_settings "realitySettings" (jobj [])
  let server_names ← pyGetD reality_settings "serverNames" (jarr [])
  if server_names.truthy then do
    let n ← pyLen server_names
    if 0 < n then do
      let v ← pyIndexZero server_names
      .ok (some v)
    else .ok none
  else .ok none

/-- Lines 280-311: the `for inbound in inbounds` loop of `update_sni`.
Result: `none` = tag not found; `some none` = SNI already equal, return `True`
without writing; `some (some ibs)` = new inbound list to write (lines 297-299
rebuild `serverNames := [new_sni]` inside `realitySettings` inside
`streamSettings`; the repeated `.get` calls return the same values the first
ones did). -/
def update_sni_loop (new_sni : String) (inbound_tag : String) :
    List JVal → PyM (Option (Option (List JVal)))
  | [] => .ok none
  | ib :: rest => do
    let t ← pyGetD ib "tag" .null
    if t = .str inbound_tag then do
      let cur ← current_sni_of ib
      if cur = some (.str new_sni) then .ok (some none)
      else do
        let ss ← pyGetD ib "streamSettings" (jobj [])
        let rs ← pyGetD ss "realitySettings" (jobj [])
        let rs2 := jobj (setField rs.olist "serverNames" (jarr [.str new_sni]))
        let ss2 := jobj (setField ss.olist "realitySettings" rs2)
        let ib2 := jobj (setField ib.olist "streamSettings" ss2)
        .ok (some (some (ib2 :: rest)))
    else do
      let r ← update_sni_loop new_sni inbound_tag rest
      match r with
      | some (some ibs2) => .ok (some (some (ib :: ibs2)))
      | other => .ok other

/-- Lines 265-315 before the `except`: body of `update_sni`. -/
def update_sni_go (writeOk : JVal → Bool) (st : XrayConfigManager)
    (new_sni : String) (inbound_tag : String) : PyM (Bool × XrayConfigManager) := do
  let config := read_config st
  let inbounds ← pyGetD config "inbounds" (jarr [])
  let ibs ← pyIter inbounds
  match ← update_sni_loop new_sni inbound_tag ibs with
  | none => .ok (false, st)
  | some none => .ok (true, st)
  | some (some ibs2) =>
      let config2 := jobj (setField config.olist "inbounds" (jarr ibs2))
      let (ok, st2) := write_config writeOk st config2
      if ok then .ok (true, { st2 with config_needs_reload := true })
      else .ok (false, st2)

/-- Lines 265-315: `update_sni`; the `except` clause returns `False`. -/
def update_sni (writeOk : JVal → Bool) (st : XrayConfigManager)
    (new_sni : String) (inbound_tag : String) : Bool × XrayConfigManager :=
  match update_sni_go writeOk st new_sni inbound_tag with
  | .error _ => (false, st)
  | .ok r => r

/-- Lines 229-245: the `for client in clients` loop of
`validate_and_fix_config`; returns whether any client was fixed together with
the rewritten client list.  The log line slices `client_id[:8]` (line 240),
raising for non-sliceable ids; this happens before any file write. -/
def vfc_clients : List JVal → PyM (Bool × List JVal)
  | [] => .ok (false, [])
  | c :: cs => do
    let client_id ← pyGetD c "id" (.str "unknown")
    let current_flow ← pyGetD c "flow" .null
    if current_flow = .str "xtls-rprx-vision" then do
      let (m, rest) ← vfc_clients cs
      .ok (m, c :: rest)
    else do
      let _ ← pySliceOk client_id
      let c2 := jobj (setField c.olist "flow" (.str "xtls-rprx-vision"))
      let (_, rest) ← vfc_clients cs
      .ok (true, c2 :: rest)

/-- Lines 221-245: the `for inbound in inbounds` loop of
`validate_and_fix_config`; non-`vless` inbounds are skipped unchanged. -/
def vfc_inbounds : List JVal → PyM (Bool × List JVal)
  | [] => .ok (false, [])
  | ib :: rest => do
    let proto ← pyGetD ib "protocol" .null
    if proto = .str "vless" then do
      let s ← pyGetD ib "settings" (jobj [])
      let cl ← pyGetD s "clients" (jarr [])
      let cs ← pyIter cl
      let (m, cs2) ← vfc_clients cs
      let ib2 := if m then
          jobj (setField ib.olist "settings" (jobj (setField s.olist "clients" (jarr cs2))))
        else ib
      let (m2, rest2) ← vfc_inbounds rest
      .ok (m || m2, ib2 :: rest2)
    else do
      let (m2, rest2) ← vfc_inbounds rest
      .ok (m2, ib :: rest2)

/-- Lines 204-263 before the `except`: body of `validate_and_fix_config`.
Note that on the write path (lines 248-256) the source does NOT set
`config_needs_reload`. -/
def validate_and_fix_config_go (writeOk : JVal → Bool) (st : XrayConfigManager) :
    PyM (Bool × XrayConfigManager) := do
  let config := read_config st
  let inbounds ← pyGetD config "inbounds" (jarr [])
  let ibs ← pyIter inbounds
  let (config_modified, ibs2) ← vfc_inbounds ibs
  if config_modified then
    let config2 := jobj (setField config.olist "inbounds" (jarr ibs2))
    let (ok, st2) := write_config writeOk st config2
    if ok then .ok (true, st2) else .ok (false, st2)
  else .ok (false, st)

/-- Lines 204-263: `validate_and_fix_config`; the `except` clause returns
`False`. -/
def validate_and_fix_config (writeOk : JVal → Bool) (st : XrayConfigManager) :
    Bool × XrayConfigManager :=
  match validate_and_fix_config_go writeOk st with
  | .error _ => (false, st)
  | .ok r => r

/-- Lines 146-202: `reload_xray` restarts the proxy, first via `nsenter`
(outcome oracle `nsenter_ok`), falling back to direct `systemctl` (oracle
`systemctl_ok`); on either success `config_needs_reload` is cleared, on
failure it is left untouched. -/
def reload_xray (st : XrayConfigManager) (nsenter_ok systemctl_ok : Bool) :
    Bool × XrayConfigManager :=
  if nsenter_ok then (true, { st with config_needs_reload := false })
  else if systemctl_ok then (true, { st with config_needs_reload := false })
  else (false, st)

/-- Lines 726-733: one iteration of `reload_xray_loop`: call `reload_xray`
if and only if `config_needs_reload` is set.  The second component records
whether the restart primitive was invoked on this tick. -/
def reload_tick (st : XrayConfigManager) (nsenter_ok systemctl_ok : Bool) :
    XrayConfigManager × Bool :=
  if st.config_needs_reload then ((reload_xray st nsenter_ok systemctl_ok).2, true)
  else (st, false)

/-- Interleaving events seen by the Dirty Flag: a Configuration Store
mutation (`sets_dirty` = whether the call wrote a changed document, in which
case `add_user`/`remove_user`/`update_sni` set the flag), or one tick of
`reload_xray_loop` with the restart outcome oracles. -/
inductive ReloadEvent where
  | mutate (sets_dirty : Bool)
  | tick (nsenter_ok systemctl_ok : Bool)
deriving DecidableEq, Repr

/-- Effect of one event on the manager state; the second component records
whether this event invoked the restart primitive. -/
def reload_step (st : XrayConfigManager) : ReloadEvent → XrayConfigManager × Bool
  | .mutate b => ({ st with config_needs_reload := st.config_needs_reload || b }, false)
  | .tick ns sc => reload_tick st ns sc

/-- Run a sequence of events, counting restart invocations. -/
def run_reload_trace (st : XrayConfigManager) : List ReloadEvent → XrayConfigManager × Nat
  | [] => (st, 0)
  | e :: es =>
      let (st2, r) := reload_step st e
      let (st3, n) := run_reload_trace st2 es
      (st3, (if r then 1 else 0) + n)

/-- Number of reload-cadence ticks in an event sequence. -/
def num_ticks : List ReloadEvent → Nat
  | [] => 0
  | .tick _ _ :: es => num_ticks es + 1
  | .mutate _ :: es => num_ticks es

/-- Lines 628-635: the desired identity set `server_uuids` built from the
control-plane user list (`user.get('uuid')`, kept when truthy). -/
def server_uuids : List JVal → PyM (Finset JVal)
  | [] => .ok ∅
  | u :: us => do
    let uuid ← pyGetD u "uuid" .null
    let rest ← server_uuids us
    .ok (if uuid.truthy then insert uuid rest else rest)

/-- Line 641: `users_to_add = server_uuids - current_uuids`. -/
def users_to_add (server_set current_set : Finset JVal) : Finset JVal :=
  server_set \ current_set

/-- Line 656: `users_to_remove = current_uuids - server_uuids`. -/
def users_to_remove (server_set current_set : Finset JVal) : Finset JVal :=
  current_set \ server_set

/-- Lines 643-653: the add loop of `sync_users`; each identity is passed to
`add_user` with `email = uuid` (line 646).  Python iterates the set
`users_to_add` in unspecified order, so the enumeration is a list parameter.
Returns the final state and the set of identities whose add call returned
`True`. -/
def run_adds (writeOk : JVal → Bool) (inbound_tag : String) :
    XrayConfigManager → List JVal → XrayConfigManager × Finset JVal
  | st, [] => (st, ∅)
  | st, u :: us =>
      let (ok, st2) := add_user writeOk st inbound_tag u u
      let (st3, s) := run_adds writeOk inbound_tag st2 us
      (st3, if ok then insert u s else s)

/-- Lines 656-663: the remove loop of `sync_users`, likewise over an
unspecified-order enumeration of `users_to_remove`.  Returns the final state
and the set of identities whose remove call returned `True`. -/
def run_removes (writeOk : JVal → Bool) (inbound_tag : String) :
    XrayConfigManager → List JVal → XrayConfigManager × Finset JVal
  | st, [] => (st, ∅)
  | st, u :: us =>
      let (ok, st2) := remove_user writeOk st inbound_tag u
      let (st3, s) := run_removes writeOk inbound_tag st2 us
      (st3, if ok then insert u s else s)

/-- Python `name.split('>>>')` on the character list: left-to-right,
non-overlapping occurrences of the three-character separator. -/
def split_sep3 : List Char → List (List Char)
  | [] => [[]]
  | '>' :: '>' :: '>' :: rest => [] :: split_sep3 rest
  | c :: rest =>
      match split_sep3 rest with
      | [] => [[c]]
      | g :: gs => (c :: g) :: gs

/-- Line 508: `parts = name.split('>>>')`. -/
def py_split_sep3 (s : String) : List String :=
  (split_sep3 s.toList).map List.asString

/-- Lines 508-509: whether a raw stats name has the structured four-part form
with leading component `user` (`len(parts) == 4 and parts[0] == 'user'`). -/
def traffic_key_matches (name : String) : Bool :=
  match py_split_sep3 name with
  | [p0, _, _, _] => p0 = "user"
  | _ => false

/-- Line 519: `user_traffic[user_uuid]['upload'] = value`. -/
def set_upload : List (String × Int × Int) → String → Int → List (String × Int × Int)
  | [], _, _ => []
  | (u, up, dn) :: es, uuid, v =>
      if u = uuid then (u, v, dn) :: es else (u, up, dn) :: set_upload es uuid v

/-- Line 521: `user_traffic[user_uuid]['download'] = value`. -/
def set_download : List (String × Int × Int) → String → Int → List (String × Int × Int)
  | [], _, _ => []
  | (u, up, dn) :: es, uuid, v =>
      if u = uuid then (u, up, v) :: es else (u, up, dn) :: set_download es uuid v

/-- Lines 503-521: one iteration of the parsing loop of `sync_traffic`.
The accumulator is the `user_traffic` dict as an insertion-ordered list of
`(uuid, upload, download)` entries (both directions default to 0 when an
entry is created, line 516). -/
def traffic_update (acc : List (String × Int × Int)) (name : String) (value : Int) :
    List (String × Int × Int) :=
  match py_split_sep3 name with
  | [p0, user_uuid, _p2, direction] =>
      if p0 = "user" then
        let acc1 := if (acc.find? (fun e => e.1 == user_uuid)).isSome then acc
          else acc ++ [(user_uuid, 0, 0)]
        if direction = "uplink" then set_upload acc1 user_uuid value
        else if direction = "downlink" then set_download acc1 user_uuid value
        else acc1
      else acc
  | _ => acc

/-- Lines 502-521: the whole parsing pass of `sync_traffic` over the raw
stats records (each already reduced to its `name`/`value` pair by
`query_stats`). -/
def parse_user_traffic (stats : List (String × Int)) : List (String × Int × Int) :=
  stats.foldl (fun acc nv => traffic_update acc nv.1 nv.2) []

/-- Inversion of a successful `PyM` bind. -/
theorem pym_bind_ok {α β : Type} {x : PyM α} {f : α → PyM β} {b : β} :
    x >>= f = .ok b ↔ ∃ a, x = .ok a ∧ f a = .ok b := by
  cases x <;> simp [Bind.bind, Except.bind]

/-- Body of `add_user` either leaves the manager state unchanged or leaves
`config_needs_reload` set: the flag is never cleared by a mutation. -/
theorem add_user_go_state (w : JVal → Bool) (st : XrayConfigManager) (tag : String)
    (u e : JVal) (r : Bool × XrayConfigManager)
    (h : add_user_go w st tag u e = .ok r) :
    r.2 = st ∨ r.2.config_needs_reload = true := by
  unfold add_user_go at h
  rw [pym_bind_ok] at h
  obtain ⟨inbounds, h1, h⟩ := h
  rw [pym_bind_ok] at h
  obtain ⟨ibs, h2, h⟩ := h
  rw [pym_bind_ok] at h
  obtain ⟨lr, h3, h⟩ := h
  match lr with
  | none =>
      simp only [Except.ok.injEq] at h
      exact Or.inl (by rw [← h])
  | some none =>
      simp only [Except.ok.injEq] at h
      exact Or.inl (by rw [← h])
  | some (some ibs2) =>
      cases hw : w (jobj (setField (read_config st).olist "inbounds" (jarr ibs2))) with
      | true =>
          simp only [write_config, hw, if_true, Except.ok.injEq] at h
          exact Or.inr (by rw [← h])
      | false =>
          simp [write_config, hw] at h
          exact Or.inl (by rw [← h])

/-- Result state of `add_user` is the input state or has the Dirty Flag set. -/
theorem add_user_state (w : JVal → Bool) (st : XrayConfigManager) (tag : String) (u e : JVal) :
    (add_user w st tag u e).2 = st ∨ (add_user w st tag u e).2.config_needs_reload = true := by
  unfold add_user
  cases h : add_user_go w st tag u e with
  | error err => exact Or.inl rfl
  | ok r => exact add_user_go_state w st tag u e r h

/-- Body of `remove_user` either leaves the manager state unchanged or leaves
`config_needs_reload` set. -/
theorem remove_user_go_state (w : JVal → Bool) (st : XrayConfigManager) (tag : String)
    (u : JVal) (r : Bool × XrayConfigManager)
    (h : remove_user_go w st tag u = .ok r) :
    r.2 = st ∨ r.2.config_needs_reload = true := by
  unfold remove_user_go at h
  rw [pym_bind_ok] at h
  obtain ⟨inbounds, h1, h⟩ := h
  rw [pym_bind_ok] at h
  obtain ⟨ibs, h2, h⟩ := h
  rw [pym_bind_ok] at h
  obtain ⟨lr, h3, h⟩ := h
  match lr with
  | none =>
      simp only [Except.ok.injEq] at h
      exact Or.inl (by rw [← h])
  | some none =>
      simp only [Except.ok.injEq] at h
      exact Or.inl (by rw [← h])
  | some (some ibs2) =>
      cases hw : w (jobj (setField (read_config st).olist "inbounds" (jarr ibs2))) with
      | true =>
          simp only [write_config, hw, if_true, Except.ok.injEq] at h
          exact Or.inr (by rw [← h])
      | false =>
          simp [write_config, hw] at h
          exact Or.inl (by rw [← h])

/-- Result state of `remove_user` is the input state or has the Dirty Flag
set. -/
theorem remove_user_state (w : JVal → Bool) (st : XrayConfigManager) (tag : String) (u : JVal) :
    (remove_user w st tag u).2 = st ∨ (remove_user w st tag u).2.config_needs_reload = true := by
  unfold remove_user
  cases h : remove_user_go w st tag u with
  | error err => exact Or.inl rfl
  | ok r => exact remove_user_go_state w st tag u r h

/-- Body of `update_sni` either leaves the manager state unchanged or leaves
`config_needs_reload` set. -/
theorem update_sni_go_state (w : JVal → Bool) (st : XrayConfigManager) (sni tag : String)
    (r : Bool × XrayConfigManager)
    (h : update_sni_go w st sni tag = .ok r) :
    r.2 = st ∨ r.2.config_needs_reload = true := by
  unfold update_sni_go at h
  rw [pym_bind_ok] at h
  obtain ⟨inbounds, h1, h⟩ := h
  rw [pym_bind_ok] at h
  obtain ⟨ibs, h2, h⟩ := h
  rw [pym_bind_ok] at h
  obtain ⟨lr, h3, h⟩ := h
  match lr with
  | none =>
      simp only [Except.ok.injEq] at h
      exact Or.inl (by rw [← h])
  | some none =>
      simp only [Except.ok.injEq] at h
      exact Or.inl (by rw [← h])
  | some (some ibs2) =>
      cases hw : w (jobj (setField (read_config st).olist "inbounds" (jarr ibs2))) with
      | true =>
          simp only [write_config, hw, if_true, Except.ok.injEq] at h
          exact Or.inr (by rw [← h])
      | false =>
          simp [write_config, hw] at h
          exact Or.inl (by rw [← h])

/-- Result state of `update_sni` is the input state or has the Dirty Flag
set. -/
theorem update_sni_state (w : JVal → Bool) (st : XrayConfigManager) (sni tag : String) :
    (update_sni w st sni tag).2 = st ∨ (update_sni w st sni tag).2.config_needs_reload = true := by
  unfold update_sni
  cases h : update_sni_go w st sni tag with
  | error err => exact Or.inl rfl
  | ok r => exact update_sni_go_state w st sni tag r h

/-- Restart invocations along a trace are bounded by the number of
reload-cadence ticks in it: mutations never invoke the restart primitive. -/
theorem run_reload_trace_le (st : XrayConfigManager) (es : List ReloadEvent) :
    (run_reload_trace st es).2 ≤ num_ticks es := by
  induction es generalizing st with
  | nil => simp [run_reload_trace, num_ticks]
  | cons e es ih =>
      cases e with
      | mutate b =>
          simpa [run_reload_trace, reload_step, num_ticks] using ih _
      | tick ns sc =>
          simp only [run_reload_trace, reload_step, num_ticks]
          by_cases hd : st.config_needs_reload = true
          · have := ih (reload_xray st ns sc).2
            simp [reload_tick, hd]
            omega
          · have := ih st
            simp [reload_tick, hd]
            omega

/-- C4: on each reload-cadence tick the Reload Scheduler invokes the restart
primitive at most once and only when the Dirty Flag is set (so k ≥ 1
mutations within one cadence window cause at most one restart); the flag is
cleared exactly when the restart succeeds, on failure it stays set and the
next tick retries, and no Configuration Store mutation ever clears it. -/
theorem reload_scheduler_debounce :
    (∀ (st : XrayConfigManager) (es : List ReloadEvent),
      (run_reload_trace st es).2 ≤ num_ticks es) ∧
    (∀ (st : XrayConfigManager) (ns sc : Bool),
      st.config_needs_reload = false → reload_tick st ns sc = (st, false)) ∧
    (∀ (st : XrayConfigManager) (ns sc : Bool),
      st.config_needs_reload = true →
        (reload_tick st ns sc).2 = true ∧
        (reload_tick st ns sc).1.config_needs_reload = !(ns || sc)) ∧
    (∀ (st : XrayConfigManager) (ns2 sc2 : Bool),
      st.config_needs_reload = true →
        (reload_tick (reload_tick st false false).1 ns2 sc2).2 = true) ∧
    (∀ (w : JVal → Bool) (st : XrayConfigManager) (tag : String) (u e : JVal),
      st.config_needs_reload = true →
        (add_user w st tag u e).2.config_needs_reload = true) ∧
    (∀ (w : JVal → Bool) (st : XrayConfigManager) (tag : String) (u : JVal),
      st.config_needs_reload = true →
        (remove_user w st tag u).2.config_needs_reload = true) ∧
    (∀ (w : JVal → Bool) (st : XrayConfigManager) (sni tag : String),
      st.config_needs_reload = true →
        (update_sni w st sni tag).2.config_needs_reload = true) := by
  refine ⟨run_reload_trace_le, ?_, ?_, ?_, ?_, ?_, ?_⟩
  · intro st ns sc h
    simp [reload_tick, h]
  · intro st ns sc h
    cases ns <;> cases sc <;> simp [reload_tick, reload_xray, h]
  · intro st ns2 sc2 h
    simp [reload_tick, reload_xray, h]
  · intro w st tag u e h
    rcases add_user_state w st tag u e with h2 | h2
    · rw [h2]; exact h
    · exact h2
  · intro w st tag u h
    rcases remove_user_state w st tag u with h2 | h2
    · rw [h2]; exact h
    · exact h2
  · intro w st sni tag h
    rcases update_sni_state w st sni tag with h2 | h2
    · rw [h2]; exact h
    · exact h2

/-- Witness for C4 at concrete inputs: three mutations then one tick yield at
most one restart; a clean tick does nothing; a dirty tick restarts, clearing
the flag on success and keeping it on failure, with the next tick retrying;
mutators keep the flag set. -/
theorem reload_scheduler_debounce_witness :
    (run_reload_trace ⟨none, false⟩
      [.mutate true, .mutate true, .mutate true, .tick true true]).2 ≤ 1 ∧
    reload_tick ⟨none, false⟩ true true = (⟨none, false⟩, false) ∧
    ((reload_tick ⟨none, true⟩ true true).2 = true ∧
      (reload_tick ⟨none, true⟩ true true).1.config_needs_reload = !(true || true)) ∧
    (reload_tick (reload_tick ⟨none, true⟩ false false).1 true true).2 = true ∧
    (add_user (fun _ => true) ⟨none, true⟩ "t" (.str "u") (.str "u")).2.config_needs_reload = true ∧
    (remove_user (fun _ => true) ⟨none, true⟩ "t" (.str "u")).2.config_needs_reload = true ∧
    (update_sni (fun _ => true) ⟨none, true⟩ "s" "t").2.config_needs_reload = true := by
  obtain ⟨h1, h2, h3, h4, h5, h6, h7⟩ := reload_scheduler_debounce
  exact ⟨by simpa using h1 ⟨none, false⟩ [.mutate true, .mutate true, .mutate true, .tick true true],
    h2 ⟨none, false⟩ true true rfl,
    h3 ⟨none, true⟩ true true rfl,
    h4 ⟨none, true⟩ true true rfl,
    h5 (fun _ => true) ⟨none, true⟩ "t" (.str "u") (.str "u") rfl,
    h6 (fun _ => true) ⟨none, true⟩ "t" (.str "u") rfl,
    h7 (fun _ => true) ⟨none, true⟩ "s" "t" rfl⟩

/-- Specification-side contract of the store's `read()` operation, following
the spec's words: it fails with an IOError when the file is unreadable or
malformed, and returns the fully-parsed structure otherwise. -/
def read_config_spec : Option JVal → Except Unit JVal
  | some doc => .ok doc
  | none => .error ()

/-- C5 counterexample: on an unreadable/malformed file the implemented
`read_config` returns the substitute empty document `{}` (and raises
nothing), while the claimed contract demands a failure. -/
theorem read_config_no_failure :
    read_config ⟨none, false⟩ = JVal.objNil ∧ read_config_spec none = .error () :=
  ⟨rfl, rfl⟩

/-- C5 (amended): `read_config` never fails; it returns the empty document
`{}` when the file is missing, unreadable or malformed, and the fully-parsed
structure otherwise (source lines 31-38: the `except` clause returns `{}`). -/
theorem read_config_total_behavior :
    (∀ b : Bool, read_config ⟨none, b⟩ = JVal.objNil) ∧
    (∀ (doc : JVal) (b : Bool), read_config ⟨some doc, b⟩ = doc) :=
  ⟨fun _ => rfl, fun _ _ => rfl⟩

/-- C10: for a missing/unreadable/malformed config file the store's read
returns the empty document instead of raising; hence `get_inbound_users`
returns the empty set for any tag, `sync_users` computes an empty removal set
(`users_to_remove D ∅ = ∅`), and `add_user` against such a document fails
with no write, leaving file and flag untouched. -/
theorem unreadable_file_behavior (b : Bool) (tag : String) (w : JVal → Bool)
    (u e : JVal) (D : Finset JVal) :
    read_config ⟨none, b⟩ = JVal.objNil ∧
    get_inbound_users ⟨none, b⟩ tag = .ok ∅ ∧
    users_to_remove D ∅ = ∅ ∧
    add_user w ⟨none, b⟩ tag u e = (false, ⟨none, b⟩) := by
  refine ⟨rfl, rfl, ?_, rfl⟩
  simp [users_to_remove]

/-- Document exhibiting the missing Dirty Flag update of
`validate_and_fix_config`: one `vless` inbound whose single client lacks the
`flow` field. -/
def vfc_demo_doc : JVal :=
  jobj [("inbounds", jarr [
      jobj [("tag", .str "vless-in"), ("protocol", .str "vless"),
        ("settings", jobj [("clients", jarr [
          jobj [("id", .str "U"), ("email", .str "u@x")]])])]]),
    ("outbounds", jarr [jobj [("protocol", .str "freedom")]])]

/-- Same document after `validate_and_fix_config` adds the missing `flow`
parameter. -/
def vfc_demo_doc_fixed : JVal :=
  jobj [("inbounds", jarr [
      jobj [("tag", .str "vless-in"), ("protocol", .str "vless"),
        ("settings", jobj [("clients", jarr [
          jobj [("id", .str "U"), ("email", .str "u@x"),
            ("flow", .str "xtls-rprx-vision")]])])]]),
    ("outbounds", jarr [jobj [("protocol", .str "freedom")]])]

/-- C2: `validate_and_fix_config` rewrites client entries and successfully
writes a document different from the one it read, yet leaves
`config_needs_reload = false` — contradicting the claim that every mutating
store call that changes the persisted document sets the Dirty Flag. -/
theorem validate_and_fix_config_misses_dirty_flag :
    validate_and_fix_config (fun _ => true) ⟨some vfc_demo_doc, false⟩
      = (true, ⟨some vfc_demo_doc_fixed, false⟩) ∧
    vfc_demo_doc_fixed ≠ vfc_demo_doc := by
  constructor
  · decide
  · decide

/-- Records whose name does not have the four-part `user>>>…` form leave the
`user_traffic` accumulator untouched (lines 508-510: `continue`). -/
theorem traffic_update_skip (acc : List (String × Int × Int)) (n : String) (v : Int)
    (h : traffic_key_matches n = false) : traffic_update acc n v = acc := by
  unfold traffic_key_matches at h
  unfold traffic_update
  match hs : py_split_sep3 n with
  | [] => rfl
  | [a] => rfl
  | [a, b] => rfl
  | [a, b, c] => rfl
  | [p0, uuid, p2, dir] =>
      rw [hs] at h
      simp only [decide_eq_false_iff_not] at h
      simp [h]
  | a :: b :: c :: d :: e :: rest => rfl

theorem parse_go_skips (stats : List (String × Int)) (acc : List (String × Int × Int)) :
    stats.foldl (fun acc nv => traffic_update acc nv.1 nv.2) acc
      = (stats.filter (fun nv => traffic_key_matches nv.1)).foldl
          (fun acc nv => traffic_update acc nv.1 nv.2) acc := by
  induction stats generalizing acc with
  | nil => rfl
  | cons nv rest ih =>
      by_cases h : traffic_key_matches nv.1 = true
      · simp [List.filter, h, List.foldl, ih]
      · simp only [Bool.not_eq_true] at h
        simp [List.filter, h, List.foldl, ih, traffic_update_skip _ _ _ h]

/-- Keys of the accumulator. -/
def traffic_keys (l : List (String × Int × Int)) : List String := l.map (fun e => e.1)

theorem set_upload_keys (l : List (String × Int × Int)) (u : String) (v : Int) :
    traffic_keys (set_upload l u v) = traffic_keys l := by
  induction l with
  | nil => rfl
  | cons e es ih =>
      obtain ⟨a, up, dn⟩ := e
      by_cases h : a = u <;> simp [set_upload, h, traffic_keys] at ih ⊢ <;> simp [ih]

theorem set_download_keys (l : List (String × Int × Int)) (u : String) (v : Int) :
    traffic_keys (set_download l u v) = traffic_keys l := by
  induction l with
  | nil => rfl
  | cons e es ih =>
      obtain ⟨a, up, dn⟩ := e
      by_cases h : a = u <;> simp [set_download, h, traffic_keys] at ih ⊢ <;> simp [ih]

theorem traffic_update_nodup (acc : List (String × Int × Int)) (n : String) (v : Int)
    (h : (traffic_keys acc).Nodup) : (traffic_keys (traffic_update acc n v)).Nodup := by
  unfold traffic_update
  match hs : py_split_sep3 n with
  | [] => exact h
  | [a] => exact h
  | [a, b] => exact h
  | [a, b, c] => exact h
  | [p0, uuid, p2, dir] =>
      by_cases hp : p0 = "user"
      · simp only [hp, if_pos rfl]
        have hacc1 : (traffic_keys (if (acc.find? (fun e => e.1 == uuid)).isSome then acc
            else acc ++ [(uuid, 0, 0)])).Nodup := by
          by_cases hf : (acc.find? (fun e => e.1 == uuid)).isSome
          · simpa [hf]
          · simp only [hf, if_false]
            have huuid : uuid ∉ traffic_keys acc := by
              intro hmem
              apply hf
              rw [List.find?_isSome]
              obtain ⟨e, he, hk⟩ := List.mem_map.mp hmem
              exact ⟨e, he, by simp [hk]⟩
            simp [traffic_keys, List.nodup_append]
            exact ⟨by simpa [traffic_keys] using h, by simpa [traffic_keys] using huuid⟩
        by_cases hu : dir = "uplink"
        · simp only [hu, if_pos rfl]
          simpa [set_upload_keys] using hacc1
        · by_cases hdw : dir = "downlink"
          · simp [hu, hdw, set_download_keys]
            simpa [set_download_keys] using hacc1
          · simpa [hu, hdw] using hacc1
      · simpa [hp] using h
  | a :: b :: c :: d :: e :: rest => exact h

theorem parse_go_nodup (stats : List (String × Int)) (acc : List (String × Int × Int))
    (h : (traffic_keys acc).Nodup) :
    (traffic_keys (stats.foldl (fun acc nv => traffic_update acc nv.1 nv.2) acc)).Nodup := by
  induction stats generalizing acc with
  | nil => exact h
  | cons nv rest ih =>
      exact ih _ (traffic_update_nodup acc nv.1 nv.2 h)

/-- C6: the Telemetry Aggregator builds one entry per identity from exactly
the records whose name has the four-part `user>>>uuid>>>traffic>>>direction`
form; non-matching records are silently skipped, and a missing direction
defaults to zero: a record carrying only `uplink` yields `(uuid, v, 0)` and a
record carrying only `downlink` yields `(uuid, 0, v)` — both in general and
in the concrete scenarios. -/
theorem sync_traffic_aggregation :
    (∀ stats : List (String × Int),
      parse_user_traffic stats
        = parse_user_traffic (stats.filter (fun nv => traffic_key_matches nv.1))) ∧
    (∀ stats : List (String × Int),
      ((parse_user_traffic stats).map (fun e => e.1)).Nodup) ∧
    (∀ (name uuid p2 : String) (v : Int),
      py_split_sep3 name = ["user", uuid, p2, "uplink"] →
      parse_user_traffic [(name, v)] = [(uuid, v, 0)]) ∧
    (∀ (name uuid p2 : String) (v : Int),
      py_split_sep3 name = ["user", uuid, p2, "downlink"] →
      parse_user_traffic [(name, v)] = [(uuid, 0, v)]) ∧
    parse_user_traffic [("user>>>A>>>traffic>>>uplink", 100),
        ("user>>>A>>>traffic>>>downlink", 50), ("other>>>X", 9)]
      = [("A", 100, 50)] ∧
    parse_user_traffic [("user>>>B>>>traffic>>>uplink", 7)] = [("B", 7, 0)] ∧
    parse_user_traffic [("user>>>C>>>traffic>>>downlink", 9)] = [("C", 0, 9)] := by
  refine ⟨?_, ?_, ?_, ?_, ?_, ?_, ?_⟩
  · intro stats
    exact parse_go_skips stats []
  · intro stats
    exact parse_go_nodup stats [] (by simp [traffic_keys])
  · intro name uuid p2 v hsplit
    simp [parse_user_traffic, traffic_update, hsplit, List.find?, set_upload]
  · intro name uuid p2 v hsplit
    simp [parse_user_traffic, traffic_update, hsplit, List.find?, set_download]
  · decide
  · decide
  · decide

/-- Witness for C6: single-direction records default the other direction to
zero at concrete inputs. -/
theorem sync_traffic_aggregation_witness :
    parse_user_traffic [("user>>>B>>>traffic>>>uplink", 7)] = [("B", 7, 0)] ∧
    parse_user_traffic [("user>>>C>>>traffic>>>downlink", 9)] = [("C", 0, 9)] := by
  obtain ⟨_, _, h3, h4, _, _, _⟩ := sync_traffic_aggregation
  exact ⟨h3 "user>>>B>>>traffic>>>uplink" "B" "traffic" 7 (by decide),
    h4 "user>>>C>>>traffic>>>downlink" "C" "traffic" 9 (by decide)⟩

/-- Whether no inbound in the list is a dict whose `tag` equals the target
(so the `for` loops scan the whole list without matching or raising). -/
def no_tag_match (inbound_tag : String) : List JVal → Bool
  | [] => true
  | ib :: rest =>
      (ib.isObjHead && !((lookupField ib.olist "tag").getD .null == .str inbound_tag))
        && no_tag_match inbound_tag rest

/-- Whether the persisted document is an object whose `inbounds` value is a
list containing no inbound with the target tag. -/
def tag_absent (st : XrayConfigManager) (inbound_tag : String) : Bool :=
  (read_config st).isObjHead &&
    (((lookupField (read_config st).olist "inbounds").getD (jarr [])).isArrHead &&
      no_tag_match inbound_tag
        ((lookupField (read_config st).olist "inbounds").getD (jarr [])).alist)

theorem add_user_loop_no_match (tag : String) (u e : JVal) (ibs : List JVal)
    (h : no_tag_match tag ibs = true) : add_user_loop tag u e ibs = .ok none := by
  induction ibs with
  | nil => rfl
  | cons ib rest ih =>
      simp only [no_tag_match, Bool.and_eq_true, Bool.not_eq_true', beq_eq_false_iff_ne] at h
      obtain ⟨⟨hobj, hne⟩, hrest⟩ := h
      simp [add_user_loop, pyGetD, hobj, hne, ih hrest, Bind.bind, Except.bind]

theorem remove_user_loop_no_match (tag : String) (u : JVal) (ibs : List JVal)
    (h : no_tag_match tag ibs = true) : remove_user_loop tag u ibs = .ok none := by
  induction ibs with
  | nil => rfl
  | cons ib rest ih =>
      simp only [no_tag_match, Bool.and_eq_true, Bool.not_eq_true', beq_eq_false_iff_ne] at h
      obtain ⟨⟨hobj, hne⟩, hrest⟩ := h
      simp [remove_user_loop, pyGetD, hobj, hne, ih hrest, Bind.bind, Except.bind]

theorem get_inbound_users_go_no_match (tag : String) (ibs : List JVal)
    (h : no_tag_match tag ibs = true) : get_inbound_users_go tag ibs = .ok ∅ := by
  induction ibs with
  | nil => rfl
  | cons ib rest ih =>
      simp only [no_tag_match, Bool.and_eq_true, Bool.not_eq_true', beq_eq_false_iff_ne] at h
      obtain ⟨⟨hobj, hne⟩, hrest⟩ := h
      simp [get_inbound_users_go, pyGetD, hobj, hne, ih hrest, Bind.bind, Except.bind]

theorem add_user_tag_absent (w : JVal → Bool) (st : XrayConfigManager) (tag : String)
    (u e : JVal) (h : tag_absent st tag = true) : add_user w st tag u e = (false, st) := by
  simp only [tag_absent, Bool.and_eq_true] at h
  obtain ⟨hdoc, harr, hnm⟩ := h
  unfold add_user add_user_go
  simp [pyGetD, hdoc, pyIter, harr, add_user_loop_no_match tag u e _ hnm,
    Bind.bind, Except.bind]

theorem remove_user_tag_absent (w : JVal → Bool) (st : XrayConfigManager) (tag : String)
    (u : JVal) (h : tag_absent st tag = true) : remove_user w st tag u = (false, st) := by
  simp only [tag_absent, Bool.and_eq_true] at h
  obtain ⟨hdoc, harr, hnm⟩ := h
  unfold remove_user remove_user_go
  simp [pyGetD, hdoc, pyIter, harr, remove_user_loop_no_match tag u _ hnm,
    Bind.bind, Except.bind]

theorem get_inbound_users_tag_absent (st : XrayConfigManager) (tag : String)
    (h : tag_absent st tag = true) : get_inbound_users st tag = .ok ∅ := by
  simp only [tag_absent, Bool.and_eq_true] at h
  obtain ⟨hdoc, harr, hnm⟩ := h
  unfold get_inbound_users
  simp [pyGetD, hdoc, pyIter, harr, get_inbound_users_go_no_match tag _ hnm,
    Bind.bind, Except.bind]

theorem run_adds_tag_absent (w : JVal → Bool) (st : XrayConfigManager) (tag : String)
    (L : List JVal) (h : tag_absent st tag = true) : run_adds w tag st L = (st, ∅) := by
  induction L with
  | nil => rfl
  | cons u us ih =>
      simp [run_adds, add_user_tag_absent w st tag u u h, ih]

theorem run_removes_tag_absent (w : JVal → Bool) (st : XrayConfigManager) (tag : String)
    (L : List JVal) (h : tag_absent st tag = true) : run_removes w tag st L = (st, ∅) := by
  induction L with
  | nil => rfl
  | cons u us ih =>
      simp [run_removes, remove_user_tag_absent w st tag u h, ih]

/-- C8: when the target tag is absent from the persisted document, `add_user`
and `remove_user` each return `False` with no write; a whole reconciliation
pass then observes the empty set, succeeds on nothing, and leaves the state
(file and flag) untouched, so the cycle fails as a whole and the unchanged
state is retried next cycle; no call raises out of the model (the agent never
terminates on this condition). -/
theorem absent_tag_hard_failure (w : JVal → Bool) (st : XrayConfigManager)
    (tag : String) (u e : JVal) (addL remL : List JVal)
    (h : tag_absent st tag = true) :
    add_user w st tag u e = (false, st) ∧
    remove_user w st tag u = (false, st) ∧
    get_inbound_users st tag = .ok ∅ ∧
    run_adds w tag st addL = (st, ∅) ∧
    run_removes w tag st remL = (st, ∅) :=
  ⟨add_user_tag_absent w st tag u e h, remove_user_tag_absent w st tag u h,
    get_inbound_users_tag_absent st tag h, run_adds_tag_absent w st tag addL h,
    run_removes_tag_absent w st tag remL h⟩

/-- Document whose only inbound carries a different tag. -/
def other_tag_doc : JVal :=
  jobj [("inbounds", jarr [jobj [("tag", .str "socks-in"),
    ("settings", jobj [("clients", jarr [jobj [("id", .str "B")]])])]])]

/-- Witness for C8: a concrete document without the `vless-in` tag makes the
mutations fail and the reconciliation pass a no-op. -/
theorem absent_tag_hard_failure_witness :
    tag_absent ⟨some other_tag_doc, false⟩ "vless-in" = true ∧
    (add_user (fun _ => true) ⟨some other_tag_doc, false⟩ "vless-in" (.str "A") (.str "A")
        = (false, ⟨some other_tag_doc, false⟩) ∧
      remove_user (fun _ => true) ⟨some other_tag_doc, false⟩ "vless-in" (.str "B")
        = (false, ⟨some other_tag_doc, false⟩) ∧
      get_inbound_users ⟨some other_tag_doc, false⟩ "vless-in" = .ok ∅ ∧
      run_adds (fun _ => true) "vless-in" ⟨some other_tag_doc, false⟩ [.str "A"]
        = (⟨some other_tag_doc, false⟩, ∅) ∧
      run_removes (fun _ => true) "vless-in" ⟨some other_tag_doc, false⟩ [.str "B"]
        = (⟨some other_tag_doc, false⟩, ∅)) :=
  ⟨by decide, absent_tag_hard_failure (fun _ => true) ⟨some other_tag_doc, false⟩
    "vless-in" (.str "A") (.str "A") [.str "A"] [.str "B"] (by decide)⟩

theorem jobj_olist (l : List (String × JVal)) : (jobj l).olist = l := by
  induction l with
  | nil => rfl
  | cons p fs ih => obtain ⟨k, v⟩ := p; simp [jobj, JVal.olist, ih]

theorem jarr_alist (l : List JVal) : (jarr l).alist = l := by
  induction l with
  | nil => rfl
  | cons v vs ih => simp [jarr, JVal.alist, ih]

theorem jobj_isObjHead (l : List (String × JVal)) : (jobj l).isObjHead = true := by
  cases l with
  | nil => rfl
  | cons p fs => obtain ⟨k, v⟩ := p; rfl

theorem jarr_isArrHead (l : List JVal) : (jarr l).isArrHead = true := by
  cases l with
  | nil => rfl
  | cons v vs => rfl

theorem lookup_setField_eq (l : List (String × JVal)) (k : String) (v : JVal) :
    lookupField (setField l k v) k = some v := by
  induction l with
  | nil => simp [setField, lookupField]
  | cons p fs ih =>
      obtain ⟨k2, v2⟩ := p
      by_cases h : k2 = k <;> simp [setField, lookupField, h, ih]

theorem lookup_setField_ne (l : List (String × JVal)) (k k2 : String) (v : JVal)
    (h : k2 ≠ k) : lookupField (setField l k v) k2 = lookupField l k2 := by
  induction l with
  | nil => simp [setField, lookupField, Ne.symm h]
  | cons p fs ih =>
      obtain ⟨k3, v3⟩ := p
      by_cases h3 : k3 = k
      · subst h3
        simp [setField, lookupField, Ne.symm h]
      · simp only [setField, lookupField, if_neg h3]
        by_cases h4 : k3 = k2 <;> simp [lookupField, h4, ih]

/-- Whether the first matching-tag test of the loops succeeds on `ib`
(`inbound.get('tag') == inbound_tag`). -/
def tag_match_d (inbound_tag : String) (ib : JVal) : Bool :=
  (lookupField ib.olist "tag").getD .null == .str inbound_tag

/-- The matched inbound's `settings` value with the loops' default `{}`. -/
def settings_val (ib : JVal) : JVal :=
  (lookupField ib.olist "settings").getD (jobj [])

/-- The matched inbound's `settings.clients` value with the default `[]`. -/
def clients_val (ib : JVal) : JVal :=
  (lookupField (settings_val ib).olist "clients").getD (jarr [])

/-- Client list of an inbound. -/
def clients_of (ib : JVal) : List JVal := (clients_val ib).alist

/-- The matched inbound's `streamSettings` value with the default `{}`. -/
def stream_val (ib : JVal) : JVal :=
  (lookupField ib.olist "streamSettings").getD (jobj [])

/-- The matched inbound's `streamSettings.realitySettings` value. -/
def reality_val (ib : JVal) : JVal :=
  (lookupField (stream_val ib).olist "realitySettings").getD (jobj [])

/-- Shape of the target inbound on which the mutating loops run without
raising: a dict whose `settings` (when present) is a dict and whose
`clients` (when present) is a list of dicts. -/
def inbound_wf (ib : JVal) : Bool :=
  ib.isObjHead &&
    (match lookupField ib.olist "settings" with
     | none => true
     | some sv => sv.isObjHead &&
         (match lookupField sv.olist "clients" with
          | none => true
          | some cv => cv.isArrHead && cv.alist.all (fun c => c.isObjHead)))

/-- Shape of an inbound list under which the loops reach a matching inbound:
every inbound before the first match is a dict with a different tag, a match
exists, and the matched inbound is well-formed. -/
def inbounds_wf (inbound_tag : String) : List JVal → Bool
  | [] => false
  | ib :: rest =>
      ib.isObjHead && (if tag_match_d inbound_tag ib then inbound_wf ib
        else inbounds_wf inbound_tag rest)

/-- Shape of the manager state under which one reconciliation step runs
without raising: the document is a dict with an `inbounds` list satisfying
`inbounds_wf` for the target tag. -/
def st_wf (st : XrayConfigManager) (inbound_tag : String) : Bool :=
  (read_config st).isObjHead &&
    (match lookupField (read_config st).olist "inbounds" with
     | some ibv => ibv.isArrHead && inbounds_wf inbound_tag ibv.alist
     | none => false)

/-- First inbound whose tag matches. -/
def first_match (inbound_tag : String) : List JVal → Option JVal
  | [] => none
  | ib :: rest =>
      if tag_match_d inbound_tag ib then some ib else first_match inbound_tag rest

/-- Rewrite the first matching inbound through `f`, as the mutating loops do. -/
def map_first_match (inbound_tag : String) (f : JVal → JVal) : List JVal → List JVal
  | [] => []
  | ib :: rest =>
      if tag_match_d inbound_tag ib then f ib :: rest
      else ib :: map_first_match inbound_tag f rest

/-- Inbound list of a document (the loops' view of `config['inbounds']`). -/
def inbounds_of (doc : JVal) : List JVal :=
  ((lookupField doc.olist "inbounds").getD (jarr [])).alist

/-- The inbound addressed by a reconciliation step. -/
def target_inbound (st : XrayConfigManager) (inbound_tag : String) : Option JVal :=
  first_match inbound_tag (inbounds_of (read_config st))

/-- Pure value of the id set read by `get_inbound_users`. -/
def client_ids : List JVal → Finset JVal
  | [] => ∅
  | c :: cs =>
      let idv := (lookupField c.olist "id").getD .null
      if idv.truthy then insert idv (client_ids cs) else client_ids cs

/-- Observed identity set of the target inbound (pure value of
`get_inbound_users` on well-formed states). -/
def obs (st : XrayConfigManager) (inbound_tag : String) : Finset JVal :=
  match target_inbound st inbound_tag with
  | some ib => client_ids (clients_of ib)
  | none => ∅

/-- Whether some client's id equals `u` (pure value of the duplicate check
`any(client.get('id') == user_uuid ...)` and of the removal test). -/
def has_id (u : JVal) : List JVal → Bool
  | [] => false
  | c :: cs => ((lookupField c.olist "id").getD .null == u) || has_id u cs

theorem inbound_wf_isObjHead {ib : JVal} (h : inbound_wf ib = true) : ib.isObjHead = true := by
  simp only [inbound_wf, Bool.and_eq_true] at h
  exact h.1

theorem inbound_wf_settings {ib : JVal} (h : inbound_wf ib = true) :
    (settings_val ib).isObjHead = true := by
  simp only [inbound_wf, Bool.and_eq_true] at h
  unfold settings_val
  match hs : lookupField ib.olist "settings" with
  | none => simp [jobj_isObjHead]
  | some sv =>
      have := h.2
      rw [hs] at this
      simp only [Bool.and_eq_true] at this
      simpa using this.1

theorem inbound_wf_clients {ib : JVal} (h : inbound_wf ib = true) :
    (clients_val ib).isArrHead = true := by
  simp only [inbound_wf, Bool.and_eq_true] at h
  unfold clients_val settings_val
  match hs : lookupField ib.olist "settings" with
  | none => simp [jobj_olist, lookupField, jarr_isArrHead]
  | some sv =>
      have h2 := h.2
      rw [hs] at h2
      simp only [Bool.and_eq_true] at h2
      simp only [Option.getD_some]
      match hc : lookupField sv.olist "clients" with
      | none => simp [jarr_isArrHead]
      | some cv =>
          have h3 := h2.2
          rw [hc] at h3
          simp only [Bool.and_eq_true] at h3
          simpa using h3.1

theorem inbound_wf_clients_obj {ib : JVal} (h : inbound_wf ib = true) :
    ∀ c ∈ clients_of ib, c.isObjHead = true := by
  simp only [inbound_wf, Bool.and_eq_true] at h
  unfold clients_of clients_val settings_val
  match hs : lookupField ib.olist "settings" with
  | none => simp [jobj_olist, lookupField, jarr_alist]
  | some sv =>
      have h2 := h.2
      rw [hs] at h2
      simp only [Bool.and_eq_true] at h2
      simp only [Option.getD_some]
      match hc : lookupField sv.olist "clients" with
      | none => simp [jarr_alist]
      | some cv =>
          have h3 := h2.2
          rw [hc] at h3
          simp only [Bool.and_eq_true, List.all_eq_true] at h3
          simpa using fun c hm => h3.2 c hm

theorem inbounds_wf_first_match {tag : String} {ibs : List JVal}
    (h : inbounds_wf tag ibs = true) :
    ∃ ib, first_match tag ibs = some ib ∧ inbound_wf ib = true := by
  induction ibs with
  | nil => simp [inbounds_wf] at h
  | cons ib rest ih =>
      simp only [inbounds_wf, Bool.and_eq_true] at h
      by_cases hm : tag_match_d tag ib = true
      · refine ⟨ib, by simp [first_match, hm], ?_⟩
        have := h.2
        rwa [if_pos hm] at this
      · simp only [Bool.not_eq_true] at hm
        have := h.2
        rw [hm] at this
        simp only [Bool.false_eq_true, if_false] at this
        obtain ⟨ib2, hfm, hwf⟩ := ih this
        exact ⟨ib2, by simp [first_match, hm, hfm], hwf⟩

theorem client_ids_mem (x : JVal) (cs : List JVal) :
    x ∈ client_ids cs
      ↔ ∃ c ∈ cs, (lookupField c.olist "id").getD .null = x ∧ x.truthy = true := by
  induction cs with
  | nil => simp [client_ids]
  | cons c cs ih =>
      simp only [client_ids]
      by_cases ht : ((lookupField c.olist "id").getD .null).truthy = true
      · simp only [ht, if_true, Finset.mem_insert, ih]
        constructor
        · rintro (rfl | ⟨c2, hm, he, htr⟩)
          · exact ⟨c, by simp, rfl, ht⟩
          · exact ⟨c2, by simp [hm], he, htr⟩
        · rintro ⟨c2, hm, he, htr⟩
          rcases List.mem_cons.mp hm with rfl | hm2
          · exact Or.inl he.symm
          · exact Or.inr ⟨c2, hm2, he, htr⟩
      · simp only [Bool.not_eq_true] at ht
        simp only [ht, Bool.false_eq_true, if_false, ih]
        constructor
        · rintro ⟨c2, hm, he, htr⟩
          exact ⟨c2, by simp [hm], he, htr⟩
        · rintro ⟨c2, hm, he, htr⟩
          rcases List.mem_cons.mp hm with rfl | hm2
          · rw [he] at ht
            rw [ht] at htr
            cases htr
          · exact ⟨c2, hm2, he, htr⟩

theorem client_ids_truthy {x : JVal} {cs : List JVal} (h : x ∈ client_ids cs) :
    x.truthy = true := by
  obtain ⟨c, _, _, ht⟩ := (client_ids_mem x cs).mp h
  exact ht

theorem has_id_iff (u : JVal) (cs : List JVal) :
    has_id u cs = true ↔ ∃ c ∈ cs, (lookupField c.olist "id").getD .null = u := by
  induction cs with
  | nil => simp [has_id]
  | cons c cs ih =>
      simp only [has_id, Bool.or_eq_true, beq_iff_eq, ih]
      constructor
      · rintro (he | ⟨c2, hm, he⟩)
        · exact ⟨c, by simp, he⟩
        · exact ⟨c2, by simp [hm], he⟩
      · rintro ⟨c2, hm, he⟩
        rcases List.mem_cons.mp hm with rfl | hm2
        · exact Or.inl he
        · exact Or.inr ⟨c2, hm2, he⟩

theorem mem_client_ids_of_has_id {u : JVal} {cs : List JVal}
    (ht : u.truthy = true) (h : has_id u cs = true) : u ∈ client_ids cs := by
  obtain ⟨c, hm, he⟩ := (has_id_iff u cs).mp h
  exact (client_ids_mem u cs).mpr ⟨c, hm, he, ht⟩

theorem has_id_of_mem_client_ids {u : JVal} {cs : List JVal}
    (h : u ∈ client_ids cs) : has_id u cs = true := by
  obtain ⟨c, hm, he, _⟩ := (client_ids_mem u cs).mp h
  exact (has_id_iff u cs).mpr ⟨c, hm, he⟩

theorem client_id_set_eq (cs : List JVal) (h : ∀ c ∈ cs, c.isObjHead = true) :
    client_id_set cs = .ok (client_ids cs) := by
  induction cs with
  | nil => rfl
  | cons c cs ih =>
      have hc := h c (by simp)
      have ih2 := ih (fun c2 hm => h c2 (by simp [hm]))
      simp [client_id_set, pyGetD, hc, ih2, client_ids, Bind.bind, Except.bind]

theorem any_id_matches_eq (u : JVal) (cs : List JVal) (h : ∀ c ∈ cs, c.isObjHead = true) :
    any_id_matches u cs = .ok (has_id u cs) := by
  induction cs with
  | nil => rfl
  | cons c cs ih =>
      have hc := h c (by simp)
      have ih2 := ih (fun c2 hm => h c2 (by simp [hm]))
      by_cases he : (lookupField c.olist "id").getD .null = u
      · simp [any_id_matches, pyGetD, hc, he, has_id, Bind.bind, Except.bind]
      · simp [any_id_matches, pyGetD, hc, he, has_id, ih2, Bind.bind, Except.bind]

theorem remove_filter_eq (u : JVal) (cs : List JVal) (h : ∀ c ∈ cs, c.isObjHead = true) :
    remove_filter u cs
      = .ok (cs.filter (fun c => !((lookupField c.olist "id").getD .null == u))) := by
  induction cs with
  | nil => rfl
  | cons c cs ih =>
      have hc := h c (by simp)
      have ih2 := ih (fun c2 hm => h c2 (by simp [hm]))
      by_cases he : (lookupField c.olist "id").getD .null = u
      · have hb : ((lookupField c.olist "id").getD .null == u) = true := by simpa using he
        simp [remove_filter, pyGetD, hc, he, List.filter_cons, hb, ih2, Bind.bind, Except.bind]
      · have hb : ((lookupField c.olist "id").getD .null == u) = false := by simpa using he
        simp [remove_filter, pyGetD, hc, he, List.filter_cons, hb, ih2, Bind.bind, Except.bind]

theorem first_match_map {tag : String} {f : JVal → JVal} {ibs : List JVal} {ib : JVal}
    (hfm : first_match tag ibs = some ib) (hf : tag_match_d tag (f ib) = true) :
    first_match tag (map_first_match tag f ibs) = some (f ib) := by
  induction ibs with
  | nil => simp [first_match] at hfm
  | cons ib0 rest ih =>
      by_cases hm : tag_match_d tag ib0 = true
      · rw [first_match, if_pos hm] at hfm
        injection hfm with he
        subst he
        simp [map_first_match, hm, first_match, hf]
      · simp only [Bool.not_eq_true] at hm
        rw [first_match, hm] at hfm
        simp only [Bool.false_eq_true, if_false] at hfm
        simp [map_first_match, hm, first_match, ih hfm]

theorem filter_length_lt_iff_has_id (u : JVal) (cs : List JVal) :
    (cs.filter (fun c => !((lookupField c.olist "id").getD .null == u))).length < cs.length
      ↔ has_id u cs = true := by
  induction cs with
  | nil => simp [has_id]
  | cons c cs ih =>
      by_cases he : (lookupField c.olist "id").getD .null = u
      · have hb : ((lookupField c.olist "id").getD .null == u) = true := by simpa using he
        have hle := List.length_filter_le
          (fun c => !((lookupField c.olist "id").getD .null == u)) cs
        simp only [List.filter_cons, hb, Bool.not_true, Bool.false_eq_true, if_false,
          List.length_cons, has_id, Bool.true_or, iff_true]
        omega
      · have hb : ((lookupField c.olist "id").getD .null == u) = false := by simpa using he
        simp only [List.filter_cons, hb, Bool.not_false, if_true, List.length_cons,
          has_id, Bool.false_or, Nat.add_lt_add_iff_right]
        exact ih

/-- The client entry appended by `add_user` (lines 80-85; `email or user_uuid`
is the uuid when the email is falsy). -/
def new_client_obj (user_uuid email : JVal) : JVal :=
  jobj [("id", user_uuid), ("email", if email.truthy then email else user_uuid),
    ("level", .num 0), ("flow", .str "xtls-rprx-vision")]

/-- Pure effect of `add_user` on the matched inbound: append the new client
to `settings.clients`, creating both keys if missing. -/
def add_client_fix (user_uuid email : JVal) (ib : JVal) : JVal :=
  jobj (setField ib.olist "settings"
    (jobj (setField (settings_val ib).olist "clients"
      (jarr (clients_of ib ++ [new_client_obj user_uuid email])))))

/-- Pure effect of `remove_user` on the matched inbound: drop every client
whose id equals the target uuid. -/
def remove_client_fix (user_uuid : JVal) (ib : JVal) : JVal :=
  jobj (setField ib.olist "settings"
    (jobj (setField (settings_val ib).olist "clients"
      (jarr ((clients_of ib).filter
        (fun c => !((lookupField c.olist "id").getD .null == user_uuid)))))))

theorem get_inbound_users_go_wf {tag : String} {ibs : List JVal} {ib : JVal}
    (h : inbounds_wf tag ibs = true) (hfm : first_match tag ibs = some ib) :
    get_inbound_users_go tag ibs = .ok (client_ids (clients_of ib)) := by
  induction ibs with
  | nil => simp [first_match] at hfm
  | cons ib0 rest ih =>
      simp only [inbounds_wf, Bool.and_eq_true] at h
      by_cases hm : tag_match_d tag ib0 = true
      · rw [first_match, if_pos hm] at hfm
        injection hfm with heq
        subst heq
        have hwf : inbound_wf ib0 = true := by
          have := h.2; rwa [if_pos hm] at this
        have hobj : ib0.isObjHead = true := h.1
        have hteq : (lookupField ib0.olist "tag").getD .null = .str tag := by
          simpa [tag_match_d] using hm
        have hso : (settings_val ib0).isObjHead = true := inbound_wf_settings hwf
        have hca : (clients_val ib0).isArrHead = true := inbound_wf_clients hwf
        have hcs := client_id_set_eq (clients_of ib0) (inbound_wf_clients_obj hwf)
        simp only [settings_val, clients_val, clients_of] at hso hca hcs
        simp [get_inbound_users_go, pyGetD, hobj, hteq, settings_val, hso, clients_val,
          pyIter, hca, clients_of, hcs, Bind.bind, Except.bind]
      · simp only [Bool.not_eq_true] at hm
        rw [first_match, hm] at hfm
        simp only [Bool.false_eq_true, if_false] at hfm
        have hrest : inbounds_wf tag rest = true := by
          have := h.2; rw [hm] at this
          simpa using this
        have hne : (lookupField ib0.olist "tag").getD .null ≠ .str tag := by
          simpa [tag_match_d] using hm
        simp [get_inbound_users_go, pyGetD, h.1, hne, ih hrest hfm,
          Bind.bind, Except.bind]

theorem add_user_loop_wf {tag : String} {ibs : List JVal} {ib : JVal} (u e : JVal)
    (h : inbounds_wf tag ibs = true) (hfm : first_match tag ibs = some ib) :
    add_user_loop tag u e ibs =
      if has_id u (clients_of ib) then .ok (some none)
      else .ok (some (some (map_first_match tag (add_client_fix u e) ibs))) := by
  induction ibs with
  | nil => simp [first_match] at hfm
  | cons ib0 rest ih =>
      simp only [inbounds_wf, Bool.and_eq_true] at h
      by_cases hm : tag_match_d tag ib0 = true
      · rw [first_match, if_pos hm] at hfm
        injection hfm with heq
        subst heq
        have hwf : inbound_wf ib0 = true := by
          have := h.2; rwa [if_pos hm] at this
        have hobj : ib0.isObjHead = true := h.1
        have hteq : (lookupField ib0.olist "tag").getD .null = .str tag := by
          simpa [tag_match_d] using hm
        have hso : (settings_val ib0).isObjHead = true := inbound_wf_settings hwf
        have hca : (clients_val ib0).isArrHead = true := inbound_wf_clients hwf
        have hany := any_id_matches_eq u (clients_of ib0) (inbound_wf_clients_obj hwf)
        by_cases hd : has_id u (clients_of ib0) = true
        · simp only [settings_val, clients_val, clients_of] at hso hca hany hd
          simp [add_user_loop, pyGetD, hobj, hteq, settings_val, hso, clients_val,
            clients_of, hca, hany, hd, Bind.bind, Except.bind]
        · simp only [Bool.not_eq_true] at hd
          simp only [settings_val, clients_val, clients_of] at hso hca hany hd
          simp [add_user_loop, pyGetD, hobj, hteq, settings_val, hso, clients_val,
            clients_of, hca, hany, hd, map_first_match, hm, add_client_fix,
            new_client_obj, Bind.bind, Except.bind]
      · simp only [Bool.not_eq_true] at hm
        rw [first_match, hm] at hfm
        simp only [Bool.false_eq_true, if_false] at hfm
        have hrest : inbounds_wf tag rest = true := by
          have := h.2; rw [hm] at this
          simpa using this
        have hne : (lookupField ib0.olist "tag").getD .null ≠ .str tag := by
          simpa [tag_match_d] using hm
        by_cases hd : has_id u (clients_of ib) = true
        · simp [add_user_loop, pyGetD, h.1, hne, ih hrest hfm, hd,
            Bind.bind, Except.bind]
        · simp only [Bool.not_eq_true] at hd
          simp [add_user_loop, pyGetD, h.1, hne, ih hrest hfm, hd, map_first_match, hm,
            Bind.bind, Except.bind]

theorem remove_user_loop_wf {tag : String} {ibs : List JVal} {ib : JVal} (u : JVal)
    (h : inbounds_wf tag ibs = true) (hfm : first_match tag ibs = some ib) :
    remove_user_loop tag u ibs =
      match lookupField ib.olist "settings" with
      | none => .error ()
      | some _ =>
          if has_id u (clients_of ib) then
            .ok (some (some (map_first_match tag (remove_client_fix u) ibs)))
          else .ok (some none) := by
  induction ibs with
  | nil => simp [first_match] at hfm
  | cons ib0 rest ih =>
      simp only [inbounds_wf, Bool.and_eq_true] at h
      by_cases hm : tag_match_d tag ib0 = true
      · rw [first_match, if_pos hm] at hfm
        injection hfm with heq
        subst heq
        have hwf : inbound_wf ib0 = true := by
          have := h.2; rwa [if_pos hm] at this
        have hobj : ib0.isObjHead = true := h.1
        have hteq : (lookupField ib0.olist "tag").getD .null = .str tag := by
          simpa [tag_match_d] using hm
        have hso : (settings_val ib0).isObjHead = true := inbound_wf_settings hwf
        have hca : (clients_val ib0).isArrHead = true := inbound_wf_clients hwf
        have hflt := remove_filter_eq u (clients_of ib0) (inbound_wf_clients_obj hwf)
        have hlen := filter_length_lt_iff_has_id u (clients_of ib0)
        match hset : lookupField ib0.olist "settings" with
        | none =>
            simp [remove_user_loop, pyGetD, hobj, hteq, hset, jobj_olist, jobj_isObjHead,
              lookupField, jarr_alist, jarr_isArrHead, pyIter, pyLen, remove_filter,
              Bind.bind, Except.bind]
        | some sv =>
            by_cases hd : has_id u (clients_of ib0) = true
            · simp only [settings_val, clients_val, clients_of, hset, Option.getD_some]
                at hso hca hflt hlen hd
              simp [remove_user_loop, pyGetD, hobj, hteq, hso, hca, pyIter, pyLen, hflt,
                hset, hlen, hd, map_first_match, hm, remove_client_fix, settings_val,
                clients_val, clients_of, Bind.bind, Except.bind]
            · simp only [settings_val, clients_val, clients_of, hset, Option.getD_some]
                at hso hca hflt hlen hd
              have hnlt := fun hlt => hd (hlen.mp hlt)
              simp [remove_user_loop, pyGetD, hobj, hteq, hso, hca, pyIter, pyLen, hflt,
                hset, hnlt, settings_val, clients_val, clients_of, hd,
                Bind.bind, Except.bind]
              exact Nat.not_lt.mp hnlt
      · simp only [Bool.not_eq_true] at hm
        rw [first_match, hm] at hfm
        simp only [Bool.false_eq_true, if_false] at hfm
        have hrest : inbounds_wf tag rest = true := by
          have := h.2; rw [hm] at this
          simpa using this
        have hne : (lookupField ib0.olist "tag").getD .null ≠ .str tag := by
          simpa [tag_match_d] using hm
        have ih2 := ih hrest hfm
        match hset : lookupField ib.olist "settings" with
        | none =>
            rw [hset] at ih2
            simp [remove_user_loop, pyGetD, h.1, hne, ih2, Bind.bind, Except.bind]
        | some sv =>
            rw [hset] at ih2
            by_cases hd : has_id u (clients_of ib) = true
            · rw [if_pos hd] at ih2
              simp [remove_user_loop, pyGetD, h.1, hne, ih2, hd, map_first_match, hm,
                Bind.bind, Except.bind]
            · simp only [Bool.not_eq_true] at hd
              rw [hd] at ih2
              simp only [Bool.false_eq_true, if_false] at ih2
              simp [remove_user_loop, pyGetD, h.1, hne, ih2, hd, Bind.bind, Except.bind]

theorem pyGetD_ok_isObj {v d a : JVal} {k : String} (h : pyGetD v k d = .ok a) :
    v.isObjHead = true ∧ a = (lookupField v.olist k).getD d := by
  unfold pyGetD at h
  by_cases ho : v.isObjHead = true
  · rw [if_pos ho] at h
    injection h with h2
    exact ⟨ho, h2.symm⟩
  · rw [if_neg ho] at h
    cases h

theorem current_sni_of_ok {ib : JVal} {cur : Option JVal}
    (h : current_sni_of ib = .ok cur) :
    ib.isObjHead = true ∧ (stream_val ib).isObjHead = true
      ∧ (reality_val ib).isObjHead = true := by
  unfold current_sni_of at h
  rw [pym_bind_ok] at h
  obtain ⟨ss, h1, h⟩ := h
  rw [pym_bind_ok] at h
  obtain ⟨rs, h2, h⟩ := h
  obtain ⟨hib, hss⟩ := pyGetD_ok_isObj h1
  subst hss
  obtain ⟨hso, hrs⟩ := pyGetD_ok_isObj h2
  subst hrs
  rw [pym_bind_ok] at h
  obtain ⟨sn, h3, h⟩ := h
  obtain ⟨hso2, hsn⟩ := pyGetD_ok_isObj h3
  exact ⟨hib, hso, hso2⟩

/-- Pure effect of `update_sni` on the matched inbound (lines 297-299):
`serverNames` replaced by the one-element list `[new_sni]`, the surrounding
objects rebuilt, every other field untouched. -/
def sni_fix (new_sni : String) (ib : JVal) : JVal :=
  jobj (setField ib.olist "streamSettings"
    (jobj (setField (stream_val ib).olist "realitySettings"
      (jobj (setField (reality_val ib).olist "serverNames" (jarr [.str new_sni]))))))

theorem update_sni_loop_noop {tag : String} {ibs : List JVal} {ib : JVal} (new_sni : String)
    (h : inbounds_wf tag ibs = true) (hfm : first_match tag ibs = some ib)
    (hc : current_sni_of ib = .ok (some (.str new_sni))) :
    update_sni_loop new_sni tag ibs = .ok (some none) := by
  induction ibs with
  | nil => simp [first_match] at hfm
  | cons ib0 rest ih =>
      simp only [inbounds_wf, Bool.and_eq_true] at h
      by_cases hm : tag_match_d tag ib0 = true
      · rw [first_match, if_pos hm] at hfm
        injection hfm with heq
        subst heq
        have hobj : ib0.isObjHead = true := h.1
        have hteq : (lookupField ib0.olist "tag").getD .null = .str tag := by
          simpa [tag_match_d] using hm
        simp [update_sni_loop, pyGetD, hobj, hteq, hc, Bind.bind, Except.bind]
      · simp only [Bool.not_eq_true] at hm
        rw [first_match, hm] at hfm
        simp only [Bool.false_eq_true, if_false] at hfm
        have hrest : inbounds_wf tag rest = true := by
          have := h.2; rw [hm] at this
          simpa using this
        have hne : (lookupField ib0.olist "tag").getD .null ≠ .str tag := by
          simpa [tag_match_d] using hm
        simp [update_sni_loop, pyGetD, h.1, hne, ih hrest hfm, Bind.bind, Except.bind]

theorem update_sni_loop_wf {tag : String} {ibs : List JVal} {ib : JVal} (new_sni : String)
    (h : inbounds_wf tag ibs = true) (hfm : first_match tag ibs = some ib) :
    update_sni_loop new_sni tag ibs = .error () ∨
    update_sni_loop new_sni tag ibs = .ok (some none) ∨
    update_sni_loop new_sni tag ibs
      = .ok (some (some (map_first_match tag (sni_fix new_sni) ibs))) := by
  induction ibs with
  | nil => simp [first_match] at hfm
  | cons ib0 rest ih =>
      simp only [inbounds_wf, Bool.and_eq_true] at h
      by_cases hm : tag_match_d tag ib0 = true
      · rw [first_match, if_pos hm] at hfm
        injection hfm with heq
        subst heq
        have hobj : ib0.isObjHead = true := h.1
        have hteq : (lookupField ib0.olist "tag").getD .null = .str tag := by
          simpa [tag_match_d] using hm
        cases hc : current_sni_of ib0 with
        | error err =>
            left
            simp [update_sni_loop, pyGetD, hobj, hteq, hc, Bind.bind, Except.bind]
        | ok cur =>
            by_cases hcur : cur = some (.str new_sni)
            · right; left
              simp [update_sni_loop, pyGetD, hobj, hteq, hc, hcur, Bind.bind, Except.bind]
            · right; right
              obtain ⟨hib2, hss, hrs⟩ := current_sni_of_ok hc
              simp only [stream_val] at hss
              simp only [reality_val, stream_val] at hrs
              simp [update_sni_loop, pyGetD, hobj, hteq, hc, hcur, hss, hrs,
                map_first_match, hm, sni_fix, stream_val, reality_val,
                Bind.bind, Except.bind]
      · simp only [Bool.not_eq_true] at hm
        rw [first_match, hm] at hfm
        simp only [Bool.false_eq_true, if_false] at hfm
        have hrest : inbounds_wf tag rest = true := by
          have := h.2; rw [hm] at this
          simpa using this
        have hne : (lookupField ib0.olist "tag").getD .null ≠ .str tag := by
          simpa [tag_match_d] using hm
        rcases ih hrest hfm with h3 | h3 | h3
        · left
          simp [update_sni_loop, pyGetD, h.1, hne, h3, Bind.bind, Except.bind]
        · right; left
          simp [update_sni_loop, pyGetD, h.1, hne, h3, Bind.bind, Except.bind]
        · right; right
          simp [update_sni_loop, pyGetD, h.1, hne, h3, map_first_match, hm,
            Bind.bind, Except.bind]

theorem st_wf_parts {st : XrayConfigManager} {tag : String} (h : st_wf st tag = true) :
    (read_config st).isObjHead = true ∧
      ∃ ibv, lookupField (read_config st).olist "inbounds" = some ibv ∧
        ibv.isArrHead = true ∧ inbounds_wf tag ibv.alist = true := by
  unfold st_wf at h
  simp only [Bool.and_eq_true] at h
  refine ⟨h.1, ?_⟩
  have h2 := h.2
  match hl : lookupField (read_config st).olist "inbounds" with
  | none => rw [hl] at h2; cases h2
  | some ibv =>
      rw [hl] at h2
      simp only [Bool.and_eq_true] at h2
      exact ⟨ibv, rfl, h2.1, h2.2⟩

theorem inbounds_of_eq {st : XrayConfigManager} {ibv : JVal}
    (hl : lookupField (read_config st).olist "inbounds" = some ibv) :
    inbounds_of (read_config st) = ibv.alist := by
  simp [inbounds_of, hl]

theorem get_inbound_users_wf {st : XrayConfigManager} {tag : String}
    (h : st_wf st tag = true) : get_inbound_users st tag = .ok (obs st tag) := by
  obtain ⟨hdoc, ibv, hl, harr, hwf⟩ := st_wf_parts h
  obtain ⟨ib, hfm, hibwf⟩ := inbounds_wf_first_match hwf
  have htarget : target_inbound st tag = some ib := by
    rw [target_inbound, inbounds_of_eq hl, hfm]
  have hgo := get_inbound_users_go_wf hwf hfm
  have hobs : obs st tag = client_ids (clients_of ib) := by
    rw [obs, htarget]
  rw [hobs]
  simp [get_inbound_users, pyGetD, hdoc, hl, pyIter, harr, hgo, Bind.bind, Except.bind]

/-- Document written by a successful `add_user`. -/
def add_write_doc (st : XrayConfigManager) (tag : String) (u e : JVal) : JVal :=
  jobj (setField (read_config st).olist "inbounds"
    (jarr (map_first_match tag (add_client_fix u e) (inbounds_of (read_config st)))))

/-- Document written by a successful `remove_user`. -/
def remove_write_doc (st : XrayConfigManager) (tag : String) (u : JVal) : JVal :=
  jobj (setField (read_config st).olist "inbounds"
    (jarr (map_first_match tag (remove_client_fix u) (inbounds_of (read_config st)))))

/-- Document written by a successful `update_sni`. -/
def sni_write_doc (st : XrayConfigManager) (new_sni : String) (tag : String) : JVal :=
  jobj (setField (read_config st).olist "inbounds"
    (jarr (map_first_match tag (sni_fix new_sni) (inbounds_of (read_config st)))))

theorem add_user_spec {st : XrayConfigManager} {tag : String} {ib : JVal}
    (w : JVal → Bool) (u e : JVal) (h : st_wf st tag = true)
    (hib : target_inbound st tag = some ib) :
    add_user w st tag u e =
      if has_id u (clients_of ib) then (true, st)
      else if w (add_write_doc st tag u e) then
        (true, ⟨some (add_write_doc st tag u e), true⟩)
      else (false, st) := by
  obtain ⟨hdoc, ibv, hl, harr, hwf⟩ := st_wf_parts h
  have hfm : first_match tag ibv.alist = some ib := by
    rw [target_inbound, inbounds_of_eq hl] at hib
    exact hib
  have hloop := add_user_loop_wf u e hwf hfm
  have hwdoc : add_write_doc st tag u e
      = jobj (setField (read_config st).olist "inbounds"
          (jarr (map_first_match tag (add_client_fix u e) ibv.alist))) := by
    rw [add_write_doc, inbounds_of_eq hl]
  by_cases hd : has_id u (clients_of ib) = true
  · rw [if_pos hd]
    rw [if_pos hd] at hloop
    simp [add_user, add_user_go, pyGetD, hdoc, hl, pyIter, harr, hloop,
      Bind.bind, Except.bind]
  · simp only [Bool.not_eq_true] at hd
    rw [hd, if_neg (by simp)] at hloop
    rw [hd]
    simp only [Bool.false_eq_true, if_false]
    by_cases hwr : w (add_write_doc st tag u e) = true
    · rw [if_pos hwr]
      rw [hwdoc] at hwr
      simp [add_user, add_user_go, pyGetD, hdoc, hl, pyIter, harr, hloop,
        write_config, hwr, hwdoc, Bind.bind, Except.bind]
    · rw [if_neg hwr]
      simp only [Bool.not_eq_true] at hwr
      rw [hwdoc] at hwr
      simp [add_user, add_user_go, pyGetD, hdoc, hl, pyIter, harr, hloop,
        write_config, hwr, hwdoc, Bind.bind, Except.bind]

theorem remove_user_spec {st : XrayConfigManager} {tag : String} {ib : JVal}
    (w : JVal → Bool) (u : JVal) (h : st_wf st tag = true)
    (hib : target_inbound st tag = some ib) :
    remove_user w st tag u =
      match lookupField ib.olist "settings" with
      | none => (false, st)
      | some _ =>
          if has_id u (clients_of ib) then
            if w (remove_write_doc st tag u) then
              (true, ⟨some (remove_write_doc st tag u), true⟩)
            else (false, st)
          else (true, st) := by
  obtain ⟨hdoc, ibv, hl, harr, hwf⟩ := st_wf_parts h
  have hfm : first_match tag ibv.alist = some ib := by
    rw [target_inbound, inbounds_of_eq hl] at hib
    exact hib
  have hloop := remove_user_loop_wf u hwf hfm
  have hwdoc : remove_write_doc st tag u
      = jobj (setField (read_config st).olist "inbounds"
          (jarr (map_first_match tag (remove_client_fix u) ibv.alist))) := by
    rw [remove_write_doc, inbounds_of_eq hl]
  match hset : lookupField ib.olist "settings" with
  | none =>
      rw [hset] at hloop
      simp [remove_user, remove_user_go, pyGetD, hdoc, hl, pyIter, harr, hloop,
        Bind.bind, Except.bind]
  | some sv =>
      rw [hset] at hloop
      by_cases hd : has_id u (clients_of ib) = true
      · rw [if_pos hd] at hloop
        rw [if_pos hd]
        by_cases hwr : w (remove_write_doc st tag u) = true
        · rw [if_pos hwr]
          rw [hwdoc] at hwr
          simp [remove_user, remove_user_go, pyGetD, hdoc, hl, pyIter, harr, hloop,
            write_config, hwr, hwdoc, Bind.bind, Except.bind]
        · rw [if_neg hwr]
          simp only [Bool.not_eq_true] at hwr
          rw [hwdoc] at hwr
          simp [remove_user, remove_user_go, pyGetD, hdoc, hl, pyIter, harr, hloop,
            write_config, hwr, hwdoc, Bind.bind, Except.bind]
      · simp only [Bool.not_eq_true] at hd
        rw [hd] at hloop
        simp only [Bool.false_eq_true, if_false] at hloop
        rw [hd]
        simp only [Bool.false_eq_true, if_false]
        simp [remove_user, remove_user_go, pyGetD, hdoc, hl, pyIter, harr, hloop,
          Bind.bind, Except.bind]

theorem update_sni_noop {st : XrayConfigManager} {tag : String} {ib : JVal}
    (w : JVal → Bool) (new_sni : String) (h : st_wf st tag = true)
    (hib : target_inbound st tag = some ib)
    (hc : current_sni_of ib = .ok (some (.str new_sni))) :
    update_sni w st new_sni tag = (true, st) := by
  obtain ⟨hdoc, ibv, hl, harr, hwf⟩ := st_wf_parts h
  have hfm : first_match tag ibv.alist = some ib := by
    rw [target_inbound, inbounds_of_eq hl] at hib
    exact hib
  have hloop := update_sni_loop_noop new_sni hwf hfm hc
  simp [update_sni, update_sni_go, pyGetD, hdoc, hl, pyIter, harr, hloop,
    Bind.bind, Except.bind]

theorem update_sni_spec {st : XrayConfigManager} {tag : String} {ib : JVal}
    (w : JVal → Bool) (new_sni : String) (h : st_wf st tag = true)
    (hib : target_inbound st tag = some ib) :
    update_sni w st new_sni tag = (false, st) ∨
    update_sni w st new_sni tag = (true, st) ∨
    update_sni w st new_sni tag = (true, ⟨some (sni_write_doc st new_sni tag), true⟩) := by
  obtain ⟨hdoc, ibv, hl, harr, hwf⟩ := st_wf_parts h
  have hfm : first_match tag ibv.alist = some ib := by
    rw [target_inbound, inbounds_of_eq hl] at hib
    exact hib
  have hwdoc : sni_write_doc st new_sni tag
      = jobj (setField (read_config st).olist "inbounds"
          (jarr (map_first_match tag (sni_fix new_sni) ibv.alist))) := by
    rw [sni_write_doc, inbounds_of_eq hl]
  rcases update_sni_loop_wf new_sni hwf hfm with h3 | h3 | h3
  · left
    simp [update_sni, update_sni_go, pyGetD, hdoc, hl, pyIter, harr, h3,
      Bind.bind, Except.bind]
  · right; left
    simp [update_sni, update_sni_go, pyGetD, hdoc, hl, pyIter, harr, h3,
      Bind.bind, Except.bind]
  · by_cases hwr : w (sni_write_doc st new_sni tag) = true
    · right; right
      rw [hwdoc] at hwr
      simp [update_sni, update_sni_go, pyGetD, hdoc, hl, pyIter, harr, h3,
        write_config, hwr, hwdoc, Bind.bind, Except.bind]
    · left
      simp only [Bool.not_eq_true] at hwr
      rw [hwdoc] at hwr
      simp [update_sni, update_sni_go, pyGetD, hdoc, hl, pyIter, harr, h3,
        write_config, hwr, Bind.bind, Except.bind]

theorem tag_match_add_fix (tag : String) (u e ib : JVal) :
    tag_match_d tag (add_client_fix u e ib) = tag_match_d tag ib := by
  simp [tag_match_d, add_client_fix, jobj_olist,
    lookup_setField_ne _ _ _ _ (by decide : "tag" ≠ "settings")]

theorem tag_match_remove_fix (tag : String) (u ib : JVal) :
    tag_match_d tag (remove_client_fix u ib) = tag_match_d tag ib := by
  simp [tag_match_d, remove_client_fix, jobj_olist,
    lookup_setField_ne _ _ _ _ (by decide : "tag" ≠ "settings")]

theorem tag_match_sni_fix (tag new_sni : String) (ib : JVal) :
    tag_match_d tag (sni_fix new_sni ib) = tag_match_d tag ib := by
  simp [tag_match_d, sni_fix, jobj_olist,
    lookup_setField_ne _ _ _ _ (by decide : "tag" ≠ "streamSettings")]

theorem settings_val_add_fix (u e ib : JVal) :
    settings_val (add_client_fix u e ib)
      = jobj (setField (settings_val ib).olist "clients"
          (jarr (clients_of ib ++ [new_client_obj u e]))) := by
  simp [settings_val, add_client_fix, jobj_olist, lookup_setField_eq]

theorem clients_of_add_fix (u e ib : JVal) :
    clients_of (add_client_fix u e ib) = clients_of ib ++ [new_client_obj u e] := by
  simp [clients_of, clients_val, settings_val_add_fix, jobj_olist,
    lookup_setField_eq, jarr_alist]

theorem settings_val_remove_fix (u ib : JVal) :
    settings_val (remove_client_fix u ib)
      = jobj (setField (settings_val ib).olist "clients"
          (jarr ((clients_of ib).filter
            (fun c => !((lookupField c.olist "id").getD .null == u))))) := by
  simp [settings_val, remove_client_fix, jobj_olist, lookup_setField_eq]

theorem clients_of_remove_fix (u ib : JVal) :
    clients_of (remove_client_fix u ib)
      = (clients_of ib).filter (fun c => !((lookupField c.olist "id").getD .null == u)) := by
  simp [clients_of, clients_val, settings_val_remove_fix, jobj_olist,
    lookup_setField_eq, jarr_alist]

theorem inbound_wf_add_fix {ib : JVal} (u e : JVal) (h : inbound_wf ib = true) :
    inbound_wf (add_client_fix u e ib) = true := by
  have hobjs := inbound_wf_clients_obj h
  unfold inbound_wf
  rw [add_client_fix]
  simp only [jobj_isObjHead, jobj_olist, lookup_setField_eq, Bool.true_and]
  simp only [jarr_isArrHead, jarr_alist, Bool.true_and, List.all_append,
    Bool.and_eq_true, List.all_eq_true]
  constructor
  · intro c hm
    exact hobjs c hm
  · intro c hm
    simp only [List.mem_singleton] at hm
    subst hm
    simp [new_client_obj, jobj_isObjHead]

theorem inbound_wf_remove_fix {ib : JVal} (u : JVal) (h : inbound_wf ib = true) :
    inbound_wf (remove_client_fix u ib) = true := by
  have hobjs := inbound_wf_clients_obj h
  unfold inbound_wf
  rw [remove_client_fix]
  simp only [jobj_isObjHead, jobj_olist, lookup_setField_eq, Bool.true_and]
  simp only [jarr_isArrHead, jarr_alist, Bool.true_and, List.all_eq_true]
  intro c hm
  exact hobjs c (List.mem_of_mem_filter hm)

theorem inbounds_wf_map_first {tag : String} {ibs : List JVal} {f : JVal → JVal}
    (h : inbounds_wf tag ibs = true)
    (hf : ∀ ib2, inbound_wf ib2 = true → tag_match_d tag ib2 = true →
      tag_match_d tag (f ib2) = true ∧ inbound_wf (f ib2) = true) :
    inbounds_wf tag (map_first_match tag f ibs) = true := by
  induction ibs with
  | nil => simpa [inbounds_wf] using h
  | cons ib0 rest ih =>
      simp only [inbounds_wf, Bool.and_eq_true] at h
      by_cases hm : tag_match_d tag ib0 = true
      · have hwf : inbound_wf ib0 = true := by
          have := h.2; rwa [if_pos hm] at this
        obtain ⟨hf1, hf2⟩ := hf ib0 hwf hm
        simp [map_first_match, hm, inbounds_wf, inbound_wf_isObjHead hf2, hf1, hf2]
      · simp only [Bool.not_eq_true] at hm
        have hrest : inbounds_wf tag rest = true := by
          have := h.2; rw [hm] at this
          simpa using this
        simp [map_first_match, hm, inbounds_wf, h.1, ih hrest]

theorem client_ids_append (l1 l2 : List JVal) :
    client_ids (l1 ++ l2) = client_ids l1 ∪ client_ids l2 := by
  ext x
  simp only [client_ids_mem, Finset.mem_union, List.mem_append]
  constructor
  · rintro ⟨c, hm | hm, he, ht⟩
    · exact Or.inl ⟨c, hm, he, ht⟩
    · exact Or.inr ⟨c, hm, he, ht⟩
  · rintro (⟨c, hm, he, ht⟩ | ⟨c, hm, he, ht⟩)
    · exact ⟨c, Or.inl hm, he, ht⟩
    · exact ⟨c, Or.inr hm, he, ht⟩

theorem client_ids_new_client {u : JVal} (e : JVal) (ht : u.truthy = true) :
    client_ids [new_client_obj u e] = {u} := by
  simp [client_ids, new_client_obj, jobj_olist, lookupField, ht]

theorem client_ids_filter_id (u : JVal) (cs : List JVal) :
    client_ids (cs.filter (fun c => !((lookupField c.olist "id").getD .null == u)))
      = client_ids cs \ {u} := by
  ext x
  simp only [client_ids_mem, Finset.mem_sdiff, Finset.mem_singleton, List.mem_filter,
    Bool.not_eq_true', beq_eq_false_iff_ne]
  constructor
  · rintro ⟨c, ⟨hm, hp⟩, he, ht⟩
    refine ⟨⟨c, hm, he, ht⟩, ?_⟩
    intro hx
    subst hx
    exact hp he
  · rintro ⟨⟨c, hm, he, ht⟩, hne⟩
    refine ⟨c, ⟨hm, ?_⟩, he, ht⟩
    rw [he]
    exact hne

theorem obs_target {st : XrayConfigManager} {tag : String} {ib : JVal}
    (hib : target_inbound st tag = some ib) :
    obs st tag = client_ids (clients_of ib) := by
  rw [obs, hib]

theorem first_match_tag {tag : String} {ibs : List JVal} {ib : JVal}
    (hfm : first_match tag ibs = some ib) : tag_match_d tag ib = true := by
  induction ibs with
  | nil => cases hfm
  | cons a rest ih =>
      by_cases hm : tag_match_d tag a = true
      · rw [first_match, if_pos hm] at hfm
        injection hfm with h2
        subst h2
        exact hm
      · simp only [Bool.not_eq_true] at hm
        rw [first_match, hm] at hfm
        simp only [Bool.false_eq_true, if_false] at hfm
        exact ih hfm

theorem union_singleton_insert (u : JVal) (s : Finset JVal) : s ∪ {u} = insert u s := by
  ext x
  simp [or_comm]

theorem write_doc_st_wf {st : XrayConfigManager} {tag : String} {f : JVal → JVal} (b : Bool)
    (h : st_wf st tag = true)
    (hf : ∀ ib2, inbound_wf ib2 = true → tag_match_d tag ib2 = true →
      tag_match_d tag (f ib2) = true ∧ inbound_wf (f ib2) = true) :
    st_wf ⟨some (jobj (setField (read_config st).olist "inbounds"
      (jarr (map_first_match tag f (inbounds_of (read_config st)))))), b⟩ tag = true := by
  obtain ⟨hdoc, ibv, hl, harr, hwf⟩ := st_wf_parts h
  have hwf2 := inbounds_wf_map_first hwf hf
  rw [st_wf]
  have hrc : read_config ⟨some (jobj (setField (read_config st).olist "inbounds"
      (jarr (map_first_match tag f (inbounds_of (read_config st)))))), b⟩
      = jobj (setField (read_config st).olist "inbounds"
          (jarr (map_first_match tag f (inbounds_of (read_config st))))) := rfl
  rw [hrc]
  simp [jobj_isObjHead, jobj_olist, lookup_setField_eq, jarr_isArrHead,
    jarr_alist, inbounds_of_eq hl, hwf2]

theorem write_doc_obs {st : XrayConfigManager} {tag : String} {ib : JVal} {f : JVal → JVal}
    (b : Bool) (hib : target_inbound st tag = some ib)
    (hftag : tag_match_d tag (f ib) = true) :
    obs ⟨some (jobj (setField (read_config st).olist "inbounds"
      (jarr (map_first_match tag f (inbounds_of (read_config st)))))), b⟩ tag
      = client_ids (clients_of (f ib)) := by
  rw [target_inbound] at hib
  have hfm2 := first_match_map hib hftag
  rw [obs, target_inbound]
  have hio : inbounds_of (read_config ⟨some (jobj (setField (read_config st).olist "inbounds"
      (jarr (map_first_match tag f (inbounds_of (read_config st)))))), b⟩)
      = map_first_match tag f (inbounds_of (read_config st)) := by
    have hrc : read_config ⟨some (jobj (setField (read_config st).olist "inbounds"
        (jarr (map_first_match tag f (inbounds_of (read_config st)))))), b⟩
        = jobj (setField (read_config st).olist "inbounds"
            (jarr (map_first_match tag f (inbounds_of (read_config st))))) := rfl
    rw [hrc]
    simp [inbounds_of, jobj_olist, lookup_setField_eq, jarr_alist]
  rw [hio, hfm2]

theorem add_user_obs {st : XrayConfigManager} {tag : String} (w : JVal → Bool) (u e : JVal)
    (h : st_wf st tag = true) :
    st_wf (add_user w st tag u e).2 tag = true ∧
    ((add_user w st tag u e).1 = true → u.truthy = true →
      obs (add_user w st tag u e).2 tag = insert u (obs st tag)) ∧
    ((add_user w st tag u e).1 = false → (add_user w st tag u e).2 = st) := by
  obtain ⟨hdoc, ibv, hl, harr, hwf⟩ := st_wf_parts h
  obtain ⟨ib, hfm, hibwf⟩ := inbounds_wf_first_match hwf
  have htarget : target_inbound st tag = some ib := by
    rw [target_inbound, inbounds_of_eq hl, hfm]
  have hspec := add_user_spec w u e h htarget
  have hfixes : ∀ ib2, inbound_wf ib2 = true → tag_match_d tag ib2 = true →
      tag_match_d tag (add_client_fix u e ib2) = true
        ∧ inbound_wf (add_client_fix u e ib2) = true := by
    intro ib2 hw2 htm
    exact ⟨by rw [tag_match_add_fix, htm], inbound_wf_add_fix u e hw2⟩
  by_cases hd : has_id u (clients_of ib) = true
  · rw [if_pos hd] at hspec
    rw [hspec]
    refine ⟨h, ?_, ?_⟩
    · intro _ ht
      have hmem : u ∈ obs st tag := by
        rw [obs_target htarget]
        exact mem_client_ids_of_has_id ht hd
      exact (Finset.insert_eq_self.mpr hmem).symm
    · intro hfalse
      cases hfalse
  · simp only [Bool.not_eq_true] at hd
    rw [hd] at hspec
    simp only [Bool.false_eq_true, if_false] at hspec
    by_cases hwr : w (add_write_doc st tag u e) = true
    · rw [if_pos hwr] at hspec
      have htagf : tag_match_d tag (add_client_fix u e ib) = true := by
        rw [tag_match_add_fix]
        exact first_match_tag hfm
      have hwfnew : st_wf (⟨some (add_write_doc st tag u e), true⟩ : XrayConfigManager) tag
          = true := by
        rw [add_write_doc]
        exact write_doc_st_wf true h hfixes
      rw [hspec]
      refine ⟨hwfnew, ?_, ?_⟩
      · intro _ ht
        have heq : obs (⟨some (add_write_doc st tag u e), true⟩ : XrayConfigManager) tag
            = insert u (obs st tag) := by
          rw [add_write_doc, write_doc_obs true htarget htagf, clients_of_add_fix,
            client_ids_append, client_ids_new_client e ht, obs_target htarget,
            union_singleton_insert]
        exact heq
      · intro hfalse
        cases hfalse
    · rw [if_neg hwr] at hspec
      rw [hspec]
      refine ⟨h, ?_, fun _ => rfl⟩
      intro hx
      cases hx

theorem sdiff_singleton_self {u : JVal} {s : Finset JVal} (h : u ∉ s) : s \ {u} = s := by
  ext x
  simp only [Finset.mem_sdiff, Finset.mem_singleton]
  constructor
  · rintro ⟨hx, _⟩
    exact hx
  · intro hx
    refine ⟨hx, ?_⟩
    intro hx2
    subst hx2
    exact h hx

theorem settings_present_of_mem_obs {st : XrayConfigManager} {tag : String} {ib : JVal}
    {u : JVal} (hib : target_inbound st tag = some ib) (hmem : u ∈ obs st tag) :
    ∃ sv, lookupField ib.olist "settings" = some sv := by
  match hset : lookupField ib.olist "settings" with
  | some sv => exact ⟨sv, rfl⟩
  | none =>
      rw [obs_target hib] at hmem
      have hempty : clients_of ib = [] := by
        simp [clients_of, clients_val, settings_val, hset, jobj_olist, lookupField,
          jarr_alist]
      rw [hempty] at hmem
      simp [client_ids] at hmem

theorem remove_user_obs {st : XrayConfigManager} {tag : String} (w : JVal → Bool) (u : JVal)
    (h : st_wf st tag = true) :
    st_wf (remove_user w st tag u).2 tag = true ∧
    ((remove_user w st tag u).1 = true →
      obs (remove_user w st tag u).2 tag = obs st tag \ {u}) ∧
    ((remove_user w st tag u).1 = false → (remove_user w st tag u).2 = st) := by
  obtain ⟨hdoc, ibv, hl, harr, hwf⟩ := st_wf_parts h
  obtain ⟨ib, hfm, hibwf⟩ := inbounds_wf_first_match hwf
  have htarget : target_inbound st tag = some ib := by
    rw [target_inbound, inbounds_of_eq hl, hfm]
  have hspec := remove_user_spec w u h htarget
  have hfixes : ∀ ib2, inbound_wf ib2 = true → tag_match_d tag ib2 = true →
      tag_match_d tag (remove_client_fix u ib2) = true
        ∧ inbound_wf (remove_client_fix u ib2) = true := by
    intro ib2 hw2 htm
    exact ⟨by rw [tag_match_remove_fix, htm], inbound_wf_remove_fix u hw2⟩
  match hset : lookupField ib.olist "settings" with
  | none =>
      rw [hset] at hspec
      rw [hspec]
      refine ⟨h, ?_, fun _ => rfl⟩
      intro hx
      cases hx
  | some sv =>
      rw [hset] at hspec
      by_cases hd : has_id u (clients_of ib) = true
      · rw [if_pos hd] at hspec
        by_cases hwr : w (remove_write_doc st tag u) = true
        · rw [if_pos hwr] at hspec
          have htagf : tag_match_d tag (remove_client_fix u ib) = true := by
            rw [tag_match_remove_fix]
            exact first_match_tag hfm
          have hwfnew : st_wf (⟨some (remove_write_doc st tag u), true⟩ : XrayConfigManager)
              tag = true := by
            rw [remove_write_doc]
            exact write_doc_st_wf true h hfixes
          rw [hspec]
          refine ⟨hwfnew, ?_, ?_⟩
          · intro _
            have heq : obs (⟨some (remove_write_doc st tag u), true⟩ : XrayConfigManager) tag
                = obs st tag \ {u} := by
              rw [remove_write_doc, write_doc_obs true htarget htagf,
                clients_of_remove_fix, client_ids_filter_id, obs_target htarget]
            exact heq
          · intro hx
            cases hx
        · rw [if_neg hwr] at hspec
          rw [hspec]
          refine ⟨h, ?_, fun _ => rfl⟩
          intro hx
          cases hx
      · simp only [Bool.not_eq_true] at hd
        rw [hd] at hspec
        simp only [Bool.false_eq_true, if_false] at hspec
        rw [hspec]
        refine ⟨h, ?_, ?_⟩
        · intro _
          have hnot : u ∉ obs st tag := by
            intro hmem
            rw [obs_target htarget] at hmem
            rw [has_id_of_mem_client_ids hmem] at hd
            cases hd
          exact (sdiff_singleton_self hnot).symm
        · intro hx
          cases hx

theorem add_user_ok_wtrue {st : XrayConfigManager} {tag : String} (u e : JVal)
    (h : st_wf st tag = true) :
    (add_user (fun _ => true) st tag u e).1 = true := by
  obtain ⟨hdoc, ibv, hl, harr, hwf⟩ := st_wf_parts h
  obtain ⟨ib, hfm, hibwf⟩ := inbounds_wf_first_match hwf
  have htarget : target_inbound st tag = some ib := by
    rw [target_inbound, inbounds_of_eq hl, hfm]
  have hspec := add_user_spec (fun _ => true) u e h htarget
  rw [hspec]
  by_cases hd : has_id u (clients_of ib) = true
  · rw [if_pos hd]
  · simp only [Bool.not_eq_true] at hd
    rw [hd]
    simp

theorem remove_user_ok_wtrue {st : XrayConfigManager} {tag : String} {u : JVal}
    (h : st_wf st tag = true) (hmem : u ∈ obs st tag) :
    (remove_user (fun _ => true) st tag u).1 = true := by
  obtain ⟨hdoc, ibv, hl, harr, hwf⟩ := st_wf_parts h
  obtain ⟨ib, hfm, hibwf⟩ := inbounds_wf_first_match hwf
  have htarget : target_inbound st tag = some ib := by
    rw [target_inbound, inbounds_of_eq hl, hfm]
  have hspec := remove_user_spec (fun _ => true) u h htarget
  obtain ⟨sv, hset⟩ := settings_present_of_mem_obs htarget hmem
  rw [hset] at hspec
  have hd : has_id u (clients_of ib) = true := by
    rw [obs_target htarget] at hmem
    exact has_id_of_mem_client_ids hmem
  rw [hspec, if_pos hd]
  simp

theorem insert_union_swap (u : JVal) (s t : Finset JVal) :
    insert u s ∪ t = s ∪ insert u t := by
  ext x
  simp only [Finset.mem_union, Finset.mem_insert]
  tauto

theorem sdiff_insert_swap (u : JVal) (s t : Finset JVal) :
    (s \ {u}) \ t = s \ insert u t := by
  ext x
  simp only [Finset.mem_sdiff, Finset.mem_singleton, Finset.mem_insert]
  tauto

theorem run_adds_obs (w : JVal → Bool) (tag : String) (L : List JVal) :
    ∀ st : XrayConfigManager, st_wf st tag = true → (∀ u ∈ L, u.truthy = true) →
      st_wf (run_adds w tag st L).1 tag = true ∧
      obs (run_adds w tag st L).1 tag = obs st tag ∪ (run_adds w tag st L).2 ∧
      (run_adds w tag st L).2 ⊆ L.toFinset := by
  induction L with
  | nil =>
      intro st h _
      simp [run_adds, h]
  | cons u us ih =>
      intro st h htr
      obtain ⟨hwf1, hobs1, hst1⟩ := add_user_obs w u u h
      rcases hadd : add_user w st tag u u with ⟨ok, st2⟩
      rw [hadd] at hwf1 hobs1 hst1
      simp only at hwf1 hobs1 hst1
      obtain ⟨hwf2, hobs2, hsub2⟩ := ih st2 hwf1 (fun v hv => htr v (by simp [hv]))
      rcases hrun : run_adds w tag st2 us with ⟨st3, S⟩
      rw [hrun] at hwf2 hobs2 hsub2
      simp only at hwf2 hobs2 hsub2
      simp only [run_adds, hadd, hrun]
      cases ok with
      | true =>
          have hobs1t := hobs1 rfl (htr u (by simp))
          refine ⟨hwf2, ?_, ?_⟩
          · simp only [if_true]
            rw [hobs2, hobs1t]
            exact insert_union_swap u (obs st tag) S
          · simp only [if_true, List.toFinset_cons]
            exact Finset.insert_subset_insert u hsub2
      | false =>
          have hst := hst1 rfl
          subst hst
          refine ⟨hwf2, ?_, ?_⟩
          · simpa using hobs2
          · simp only [Bool.false_eq_true, if_false, List.toFinset_cons]
            exact hsub2.trans (Finset.subset_insert u us.toFinset)

theorem run_removes_obs (w : JVal → Bool) (tag : String) (L : List JVal) :
    ∀ st : XrayConfigManager, st_wf st tag = true →
      st_wf (run_removes w tag st L).1 tag = true ∧
      obs (run_removes w tag st L).1 tag = obs st tag \ (run_removes w tag st L).2 ∧
      (run_removes w tag st L).2 ⊆ L.toFinset := by
  induction L with
  | nil =>
      intro st h
      simp [run_removes, h]
  | cons u us ih =>
      intro st h
      obtain ⟨hwf1, hobs1, hst1⟩ := remove_user_obs w u h
      rcases hrem : remove_user w st tag u with ⟨ok, st2⟩
      rw [hrem] at hwf1 hobs1 hst1
      simp only at hwf1 hobs1 hst1
      obtain ⟨hwf2, hobs2, hsub2⟩ := ih st2 hwf1
      rcases hrun : run_removes w tag st2 us with ⟨st3, S⟩
      rw [hrun] at hwf2 hobs2 hsub2
      simp only at hwf2 hobs2 hsub2
      simp only [run_removes, hrem, hrun]
      cases ok with
      | true =>
          have hobs1t := hobs1 rfl
          refine ⟨hwf2, ?_, ?_⟩
          · simp only [if_true]
            rw [hobs2, hobs1t]
            exact sdiff_insert_swap u (obs st tag) S
          · simp only [if_true, List.toFinset_cons]
            exact Finset.insert_subset_insert u hsub2
      | false =>
          have hst := hst1 rfl
          subst hst
          refine ⟨hwf2, ?_, ?_⟩
          · simpa using hobs2
          · simp only [Bool.false_eq_true, if_false, List.toFinset_cons]
            exact hsub2.trans (Finset.subset_insert u us.toFinset)

theorem run_adds_all_ok (tag : String) (L : List JVal) :
    ∀ st : XrayConfigManager, st_wf st tag = true →
      (run_adds (fun _ => true) tag st L).2 = L.toFinset := by
  induction L with
  | nil =>
      intro st _
      simp [run_adds]
  | cons u us ih =>
      intro st h
      obtain ⟨hwf1, _, _⟩ := add_user_obs (fun _ => true) u u h
      have hok := add_user_ok_wtrue u u h
      rcases hadd : add_user (fun _ => true) st tag u u with ⟨ok, st2⟩
      rw [hadd] at hwf1 hok
      simp only at hwf1 hok
      subst hok
      simp only [run_adds, hadd, if_true, List.toFinset_cons]
      rcases hrun : run_adds (fun _ => true) tag st2 us with ⟨st3, S⟩
      have := ih st2 hwf1
      rw [hrun] at this
      simp only at this
      rw [this]

theorem run_removes_all_ok (tag : String) (L : List JVal) :
    ∀ st : XrayConfigManager, st_wf st tag = true → L.Nodup →
      (∀ u ∈ L, u ∈ obs st tag) →
      (run_removes (fun _ => true) tag st L).2 = L.toFinset := by
  induction L with
  | nil =>
      intro st _ _ _
      simp [run_removes]
  | cons u us ih =>
      intro st h hnd hmem
      obtain ⟨hwf1, hobs1, _⟩ := remove_user_obs (fun _ => true) u h
      have hok := remove_user_ok_wtrue h (hmem u (by simp))
      rcases hrem : remove_user (fun _ => true) st tag u with ⟨ok, st2⟩
      rw [hrem] at hwf1 hobs1 hok
      simp only at hwf1 hobs1 hok
      subst hok
      have hobs2 := hobs1 rfl
      simp only [run_removes, hrem, if_true, List.toFinset_cons]
      rcases hrun : run_removes (fun _ => true) tag st2 us with ⟨st3, S⟩
      have hmem2 : ∀ v ∈ us, v ∈ obs st2 tag := by
        intro v hv
        rw [hobs2]
        simp only [Finset.mem_sdiff, Finset.mem_singleton]
        refine ⟨hmem v (by simp [hv]), ?_⟩
        intro hvu
        subst hvu
        exact (List.nodup_cons.mp hnd).1 hv
      have := ih st2 hwf1 (List.nodup_cons.mp hnd).2 hmem2
      rw [hrun] at this
      simp only at this
      rw [this]

theorem run_adds_dirty (w : JVal → Bool) (tag : String) (L : List JVal) :
    ∀ st : XrayConfigManager, st.config_needs_reload = true →
      (run_adds w tag st L).1.config_needs_reload = true := by
  induction L with
  | nil =>
      intro st h
      simpa [run_adds] using h
  | cons u us ih =>
      intro st h
      rcases hadd : add_user w st tag u u with ⟨ok, st2⟩
      have hst2 : st2.config_needs_reload = true := by
        rcases add_user_state w st tag u u with h2 | h2 <;> rw [hadd] at h2
        · simp only at h2
          rw [h2]
          exact h
        · exact h2
      simp only [run_adds, hadd]
      rcases hrun : run_adds w tag st2 us with ⟨st3, S⟩
      have := ih st2 hst2
      rw [hrun] at this
      exact this

theorem run_removes_dirty (w : JVal → Bool) (tag : String) (L : List JVal) :
    ∀ st : XrayConfigManager, st.config_needs_reload = true →
      (run_removes w tag st L).1.config_needs_reload = true := by
  induction L with
  | nil =>
      intro st h
      simpa [run_removes] using h
  | cons u us ih =>
      intro st h
      rcases hrem : remove_user w st tag u with ⟨ok, st2⟩
      have hst2 : st2.config_needs_reload = true := by
        rcases remove_user_state w st tag u with h2 | h2 <;> rw [hrem] at h2
        · simp only at h2
          rw [h2]
          exact h
        · exact h2
      simp only [run_removes, hrem]
      rcases hrun : run_removes w tag st2 us with ⟨st3, S⟩
      have := ih st2 hst2
      rw [hrun] at this
      exact this

theorem server_uuids_truthy {users : List JVal} {D : Finset JVal}
    (h : server_uuids users = .ok D) : ∀ u ∈ D, u.truthy = true := by
  induction users generalizing D with
  | nil =>
      simp only [server_uuids, Except.ok.injEq] at h
      subst h
      intro u hu
      cases hu
  | cons x us ih =>
      rw [server_uuids, pym_bind_ok] at h
      obtain ⟨uuid, h1, h⟩ := h
      rw [pym_bind_ok] at h
      obtain ⟨rest, h2, h⟩ := h
      simp only [Except.ok.injEq] at h
      subst h
      intro u hu
      by_cases ht : uuid.truthy = true
      · rw [if_pos ht] at hu
        rcases Finset.mem_insert.mp hu with rfl | hu2
        · exact ht
        · exact ih h2 u hu2
      · simp only [Bool.not_eq_true] at ht
        rw [ht] at hu
        simp only [Bool.false_eq_true, if_false] at hu
        exact ih h2 u hu

theorem add_user_wtrue_dirty {st : XrayConfigManager} {tag : String} {u : JVal} (e : JVal)
    (h : st_wf st tag = true) (ht : u.truthy = true) (hnot : u ∉ obs st tag) :
    (add_user (fun _ => true) st tag u e).2.config_needs_reload = true := by
  obtain ⟨hdoc, ibv, hl, harr, hwf⟩ := st_wf_parts h
  obtain ⟨ib, hfm, hibwf⟩ := inbounds_wf_first_match hwf
  have htarget : target_inbound st tag = some ib := by
    rw [target_inbound, inbounds_of_eq hl, hfm]
  have hspec := add_user_spec (fun _ => true) u e h htarget
  have hd : has_id u (clients_of ib) = false := by
    by_cases hd2 : has_id u (clients_of ib) = true
    · exfalso
      apply hnot
      rw [obs_target htarget]
      exact mem_client_ids_of_has_id ht hd2
    · simpa using hd2
  rw [hd] at hspec
  simp only [Bool.false_eq_true, if_false, if_true] at hspec
  rw [hspec]

theorem remove_user_wtrue_dirty {st : XrayConfigManager} {tag : String} {u : JVal}
    (h : st_wf st tag = true) (hmem : u ∈ obs st tag) :
    (remove_user (fun _ => true) st tag u).2.config_needs_reload = true := by
  obtain ⟨hdoc, ibv, hl, harr, hwf⟩ := st_wf_parts h
  obtain ⟨ib, hfm, hibwf⟩ := inbounds_wf_first_match hwf
  have htarget : target_inbound st tag = some ib := by
    rw [target_inbound, inbounds_of_eq hl, hfm]
  have hspec := remove_user_spec (fun _ => true) u h htarget
  obtain ⟨sv, hset⟩ := settings_present_of_mem_obs htarget hmem
  rw [hset] at hspec
  have hd : has_id u (clients_of ib) = true := by
    rw [obs_target htarget] at hmem
    exact has_id_of_mem_client_ids hmem
  rw [if_pos hd, if_pos rfl] at hspec
  rw [hspec]

theorem reconcile_set_identity (D O : Finset JVal) : (O ∪ D \ O) \ (O \ D) = D := by
  ext x
  simp only [Finset.mem_sdiff, Finset.mem_union]
  tauto

/-- C1: one `sync_users` pass computes `toAdd = D \ O` and `toRemove = O \ D`
(lines 641, 656); after running the add loop and then the remove loop, the
observed identity set read back from the target tag is exactly the original
set plus the identities whose add call returned success, minus the identities
whose remove call returned success; when every write succeeds the resulting
observed set equals the desired set `D`, and if `D ≠ O` the Dirty Flag ends
up set (CLEAN→DIRTY for the concrete scenario). -/
theorem sync_users_reconciliation
    (w : JVal → Bool) (st : XrayConfigManager) (tag : String) (users : List JVal)
    (D O : Finset JVal) (addL remL : List JVal)
    (hD : server_uuids users = .ok D)
    (hwf : st_wf st tag = true)
    (hO : get_inbound_users st tag = .ok O)
    (haddL : addL.toFinset = users_to_add D O)
    (hremL : remL.toFinset = users_to_remove D O)
    (hremnd : remL.Nodup) :
    users_to_add D O = D \ O ∧
    users_to_remove D O = O \ D ∧
    get_inbound_users (run_removes w tag (run_adds w tag st addL).1 remL).1 tag
      = .ok ((O ∪ (run_adds w tag st addL).2)
          \ (run_removes w tag (run_adds w tag st addL).1 remL).2) ∧
    (run_adds w tag st addL).2 ⊆ D \ O ∧
    (run_removes w tag (run_adds w tag st addL).1 remL).2 ⊆ O \ D ∧
    ((∀ d, w d = true) →
      get_inbound_users (run_removes w tag (run_adds w tag st addL).1 remL).1 tag = .ok D ∧
      (D ≠ O →
        (run_removes w tag (run_adds w tag st addL).1 remL).1.config_needs_reload = true)) := by
  have hObs : obs st tag = O := by
    have := get_inbound_users_wf hwf
    rw [hO] at this
    injection this with h2
    exact h2.symm
  have htruthyD : ∀ u ∈ D, u.truthy = true := server_uuids_truthy hD
  have htruthyAdd : ∀ u ∈ addL, u.truthy = true := by
    intro u hu
    have : u ∈ addL.toFinset := List.mem_toFinset.mpr hu
    rw [haddL, users_to_add] at this
    exact htruthyD u (Finset.mem_sdiff.mp this).1
  obtain ⟨hwf1, hobs1, hsubA⟩ := run_adds_obs w tag addL st hwf htruthyAdd
  obtain ⟨hwf2, hobs2, hsubR⟩ := run_removes_obs w tag remL (run_adds w tag st addL).1 hwf1
  have hsubA2 : (run_adds w tag st addL).2 ⊆ D \ O := by
    rw [haddL, users_to_add] at hsubA
    exact hsubA
  have hsubR2 : (run_removes w tag (run_adds w tag st addL).1 remL).2 ⊆ O \ D := by
    rw [hremL, users_to_remove] at hsubR
    exact hsubR
  have hgiu2 : get_inbound_users (run_removes w tag (run_adds w tag st addL).1 remL).1 tag
      = .ok ((O ∪ (run_adds w tag st addL).2)
          \ (run_removes w tag (run_adds w tag st addL).1 remL).2) := by
    rw [get_inbound_users_wf hwf2, hobs2, hobs1, hObs]
  refine ⟨rfl, rfl, hgiu2, hsubA2, hsubR2, ?_⟩
  intro hw
  have hwe : w = fun _ => true := funext (fun d => hw d)
  subst hwe
  have hA : (run_adds (fun _ => true) tag st addL).2 = D \ O := by
    rw [run_adds_all_ok tag addL st hwf, haddL, users_to_add]
  have hmemR : ∀ u ∈ remL, u ∈ obs (run_adds (fun _ => true) tag st addL).1 tag := by
    intro u hu
    have hu2 : u ∈ O \ D := by
      have : u ∈ remL.toFinset := List.mem_toFinset.mpr hu
      rwa [hremL, users_to_remove] at this
    rw [hobs1, hObs]
    exact Finset.mem_union_left _ (Finset.mem_sdiff.mp hu2).1
  have hR : (run_removes (fun _ => true) tag (run_adds (fun _ => true) tag st addL).1 remL).2
      = O \ D := by
    rw [run_removes_all_ok tag remL (run_adds (fun _ => true) tag st addL).1 hwf1 hremnd hmemR,
      hremL, users_to_remove]
  constructor
  · rw [hgiu2, hA, hR, reconcile_set_identity]
  · intro hDO
    match addL, haddL, htruthyAdd, hobs1 with
    | firstAdd :: restAdd, haddL, htruthyAdd, hobs1 =>
        have hmemAdd : firstAdd ∈ D \ O := by
          have hx : firstAdd ∈ (firstAdd :: restAdd).toFinset := by simp
          rw [haddL, users_to_add] at hx
          exact hx
        apply run_removes_dirty
        rcases hadd1 : add_user (fun _ => true) st tag firstAdd firstAdd with ⟨ok1, st2⟩
        have hdirty2 : st2.config_needs_reload = true := by
          have := add_user_wtrue_dirty firstAdd hwf
            (htruthyD firstAdd (Finset.mem_sdiff.mp hmemAdd).1)
            (by rw [hObs]; exact (Finset.mem_sdiff.mp hmemAdd).2)
          rwa [hadd1] at this
        simp only [run_adds, hadd1]
        rcases hrun2 : run_adds (fun _ => true) tag st2 restAdd with ⟨st3, S3⟩
        have := run_adds_dirty (fun _ => true) tag restAdd st2 hdirty2
        rw [hrun2] at this
        exact this
    | [], haddL, htruthyAdd, hobs1 =>
        have hDOempty : D \ O = ∅ := by
          simpa [users_to_add] using haddL.symm
        have hODnonempty : (O \ D).Nonempty := by
          rcases Finset.eq_empty_or_nonempty (O \ D) with he | hne
          · exfalso
            apply hDO
            have h1 : D ⊆ O := by
              rw [← Finset.sdiff_eq_empty_iff_subset]
              exact hDOempty
            have h2 : O ⊆ D := by
              rw [← Finset.sdiff_eq_empty_iff_subset]
              exact he
            exact Finset.Subset.antisymm h1 h2
          · exact hne
        match remL, hremL, hremnd with
        | [], hremL, hremnd =>
            exfalso
            obtain ⟨x, hx⟩ := hODnonempty
            have hmem0 : x ∈ ([] : List JVal).toFinset := by
              rw [hremL, users_to_remove]
              exact hx
            simp at hmem0
        | firstRem :: restRem, hremL, hremnd =>
            have hst1 : run_adds (fun _ => true) tag st ([] : List JVal) = (st, ∅) := rfl
            rw [hst1]
            have hmemRem : firstRem ∈ O \ D := by
              have hx : firstRem ∈ (firstRem :: restRem).toFinset := by simp
              rwa [hremL, users_to_remove] at hx
            rcases hrem1 : remove_user (fun _ => true) st tag firstRem with ⟨ok1, st2⟩
            have hdirty2 : st2.config_needs_reload = true := by
              have := remove_user_wtrue_dirty hwf
                (by rw [hObs]; exact (Finset.mem_sdiff.mp hmemRem).1)
              rwa [hrem1] at this
            simp only [run_removes, hrem1]
            rcases hrun2 : run_removes (fun _ => true) tag st2 restRem with ⟨st3, S3⟩
            have := run_removes_dirty (fun _ => true) tag restRem st2 hdirty2
            rw [hrun2] at this
            exact this

/-- Configuration document for the concrete reconciliation scenario:
observed identities `{B, C}` under tag `vless-in`. -/
def scenario_doc : JVal :=
  jobj [("inbounds", jarr [
      jobj [("tag", .str "vless-in"), ("protocol", .str "vless"),
        ("settings", jobj [("clients", jarr [
          jobj [("id", .str "B"), ("email", .str "B")],
          jobj [("id", .str "C"), ("email", .str "C")]])])]]),
    ("outbounds", jarr [jobj [("protocol", .str "freedom")]])]

/-- Manager state for the scenario, Dirty Flag CLEAN. -/
def scenario_st : XrayConfigManager := ⟨some scenario_doc, false⟩

/-- Control-plane payload for the scenario: desired identities `{A, B}`. -/
def scenario_users : List JVal :=
  [jobj [("uuid", .str "A")], jobj [("uuid", .str "B")]]

/-- Witness for C1: desired `{A,B}` against observed `{B,C}` yields
`toAdd = {A}`, `toRemove = {C}`, post-state observed `{A,B}` and the Dirty
Flag transitions CLEAN→DIRTY. -/
theorem sync_users_reconciliation_witness :
    users_to_add {JVal.str "A", JVal.str "B"} {JVal.str "B", JVal.str "C"}
      = {JVal.str "A"} ∧
    users_to_remove {JVal.str "A", JVal.str "B"} {JVal.str "B", JVal.str "C"}
      = {JVal.str "C"} ∧
    get_inbound_users (run_removes (fun _ => true) "vless-in"
        (run_adds (fun _ => true) "vless-in" scenario_st [JVal.str "A"]).1
        [JVal.str "C"]).1 "vless-in"
      = .ok {JVal.str "A", JVal.str "B"} ∧
    (run_removes (fun _ => true) "vless-in"
        (run_adds (fun _ => true) "vless-in" scenario_st [JVal.str "A"]).1
        [JVal.str "C"]).1.config_needs_reload = true := by
  have H := sync_users_reconciliation (fun _ => true) scenario_st "vless-in" scenario_users
    {JVal.str "A", JVal.str "B"} {JVal.str "B", JVal.str "C"}
    [JVal.str "A"] [JVal.str "C"]
    (by decide) (by decide) (by decide) (by decide) (by decide) (by decide)
  obtain ⟨h1, h2, _, _, _, h6⟩ := H
  obtain ⟨h7, h8⟩ := h6 (fun _ => rfl)
  exact ⟨h1.trans (by decide), h2.trans (by decide), h7, h8 (by decide)⟩

/-- C3: `add_user` is idempotent — when the identity is already present under
the target tag it returns `True` and leaves the whole manager state (persisted
document and Dirty Flag) unchanged (lines 76-78); likewise `update_sni`
returns `True` with no write and no dirty-flag set when the stored first
server name already equals the target (lines 292-294). -/
theorem idempotent_store_calls :
    (∀ (w : JVal → Bool) (st : XrayConfigManager) (tag : String) (u e : JVal),
      st_wf st tag = true → u ∈ obs st tag →
      add_user w st tag u e = (true, st)) ∧
    (∀ (w : JVal → Bool) (st : XrayConfigManager) (tag new_sni : String) (ib : JVal),
      st_wf st tag = true → target_inbound st tag = some ib →
      current_sni_of ib = .ok (some (.str new_sni)) →
      update_sni w st new_sni tag = (true, st)) := by
  constructor
  · intro w st tag u e h hmem
    obtain ⟨hdoc, ibv, hl, harr, hwf⟩ := st_wf_parts h
    obtain ⟨ib, hfm, hibwf⟩ := inbounds_wf_first_match hwf
    have htarget : target_inbound st tag = some ib := by
      rw [target_inbound, inbounds_of_eq hl, hfm]
    have hd : has_id u (clients_of ib) = true := by
      rw [obs_target htarget] at hmem
      exact has_id_of_mem_client_ids hmem
    rw [add_user_spec w u e h htarget, if_pos hd]
  · intro w st tag new_sni ib h htarget hc
    exact update_sni_noop w new_sni h htarget hc

/-- Document for the transport-parameter no-op scenario: stored first server
name already `vk.com`. -/
def sni_demo_ib : JVal :=
  jobj [("tag", .str "vless-in"), ("protocol", .str "vless"),
    ("streamSettings", jobj [("realitySettings",
      jobj [("serverNames", jarr [.str "vk.com", .str "x.com"])])]),
    ("settings", jobj [("clients", jarr [])])]

/-- Manager state for the transport-parameter no-op scenario. -/
def sni_demo_st : XrayConfigManager :=
  ⟨some (jobj [("inbounds", jarr [sni_demo_ib])]), false⟩

/-- Witness for C3: re-adding `B` (already observed) returns success with the
state untouched, and setting the server name to its current value is a no-op. -/
theorem idempotent_store_calls_witness :
    add_user (fun _ => true) scenario_st "vless-in" (.str "B") (.str "B")
      = (true, scenario_st) ∧
    update_sni (fun _ => true) sni_demo_st "vk.com" "vless-in" = (true, sni_demo_st) := by
  obtain ⟨h1, h2⟩ := idempotent_store_calls
  exact ⟨h1 (fun _ => true) scenario_st "vless-in" (.str "B") (.str "B")
      (by decide) (by decide),
    h2 (fun _ => true) sni_demo_st "vless-in" "vk.com" sni_demo_ib
      (by decide) (by decide) (by decide)⟩

/-- Two values agree, as objects, on every field except `k`. -/
def obj_agrees_except (v v2 : JVal) (k : String) : Prop :=
  ∀ k2, k2 ≠ k → lookupField v2.olist k2 = lookupField v.olist k2

/-- Frame of `add_user`/`remove_user` on the matched inbound: only
`settings.clients` may differ. -/
def inbound_settings_frame (ib ib2 : JVal) : Prop :=
  obj_agrees_except ib ib2 "settings" ∧
  obj_agrees_except (settings_val ib) (settings_val ib2) "clients"

/-- Frame of `update_sni` on the matched inbound: only
`streamSettings.realitySettings.serverNames` may differ. -/
def inbound_stream_frame (ib ib2 : JVal) : Prop :=
  obj_agrees_except ib ib2 "streamSettings" ∧
  obj_agrees_except (stream_val ib) (stream_val ib2) "realitySettings" ∧
  obj_agrees_except (reality_val ib) (reality_val ib2) "serverNames"

/-- Frame of one store mutation on the whole document: either the state is
untouched, or the new document agrees with the old one on every top-level
field except `inbounds` (outbounds, routing, log, …), and inbound-by-inbound
every entry is unchanged except the matched one, which satisfies the
op-specific inner frame. -/
def doc_frame (st st2 : XrayConfigManager) (tag : String)
    (inner : JVal → JVal → Prop) : Prop :=
  st2 = st ∨
  ∃ doc doc2,
    st.file = some doc ∧ st2.file = some doc2 ∧
    obj_agrees_except doc doc2 "inbounds" ∧
    List.Forall₂ (fun ib ib2 => ib2 = ib ∨ (tag_match_d tag ib = true ∧ inner ib ib2))
      (inbounds_of doc) (inbounds_of doc2)

theorem st_wf_file {st : XrayConfigManager} {tag : String} (h : st_wf st tag = true) :
    ∃ doc, st.file = some doc ∧ read_config st = doc := by
  match hf : st.file with
  | some doc => exact ⟨doc, rfl, by rw [read_config, hf]⟩
  | none =>
      exfalso
      rw [st_wf, read_config, hf] at h
      simp [JVal.olist, lookupField] at h

theorem forall₂_map_first_match {tag : String} {f : JVal → JVal}
    {inner : JVal → JVal → Prop} (l : List JVal)
    (hinner : ∀ ib2, tag_match_d tag ib2 = true → inner ib2 (f ib2)) :
    List.Forall₂ (fun ib ib2 => ib2 = ib ∨ (tag_match_d tag ib = true ∧ inner ib ib2))
      l (map_first_match tag f l) := by
  induction l with
  | nil => exact List.Forall₂.nil
  | cons ib rest ih =>
      by_cases hm : tag_match_d tag ib = true
      · rw [map_first_match, if_pos hm]
        refine List.Forall₂.cons (Or.inr ⟨hm, hinner ib hm⟩) ?_
        rw [List.forall₂_same]
        intro x _
        exact Or.inl rfl
      · simp only [Bool.not_eq_true] at hm
        rw [map_first_match, hm]
        simp only [Bool.false_eq_true, if_false]
        exact List.Forall₂.cons (Or.inl rfl) ih

theorem doc_frame_write {st : XrayConfigManager} {tag : String} {f : JVal → JVal}
    {inner : JVal → JVal → Prop} (b : Bool) (h : st_wf st tag = true)
    (hinner : ∀ ib2, tag_match_d tag ib2 = true → inner ib2 (f ib2)) :
    doc_frame st ⟨some (jobj (setField (read_config st).olist "inbounds"
      (jarr (map_first_match tag f (inbounds_of (read_config st)))))), b⟩ tag inner := by
  obtain ⟨doc, hfile, hrc⟩ := st_wf_file h
  right
  refine ⟨doc, jobj (setField (read_config st).olist "inbounds"
    (jarr (map_first_match tag f (inbounds_of (read_config st))))), hfile, rfl, ?_, ?_⟩
  · intro k2 hk
    rw [hrc]
    simp [jobj_olist, lookup_setField_ne _ _ _ _ hk]
  · have hio : inbounds_of (jobj (setField (read_config st).olist "inbounds"
        (jarr (map_first_match tag f (inbounds_of (read_config st))))))
        = map_first_match tag f (inbounds_of (read_config st)) := by
      simp [inbounds_of, jobj_olist, lookup_setField_eq, jarr_alist]
    rw [hio, hrc]
    rw [← hrc]
    exact forall₂_map_first_match (inbounds_of (read_config st)) hinner

theorem add_fix_frame (u e ib : JVal) : inbound_settings_frame ib (add_client_fix u e ib) := by
  constructor
  · intro k2 hk
    simp [add_client_fix, jobj_olist, lookup_setField_ne _ _ _ _ hk]
  · intro k2 hk
    rw [settings_val_add_fix]
    simp [jobj_olist, lookup_setField_ne _ _ _ _ hk]

theorem remove_fix_frame (u ib : JVal) : inbound_settings_frame ib (remove_client_fix u ib) := by
  constructor
  · intro k2 hk
    simp [remove_client_fix, jobj_olist, lookup_setField_ne _ _ _ _ hk]
  · intro k2 hk
    rw [settings_val_remove_fix]
    simp [jobj_olist, lookup_setField_ne _ _ _ _ hk]

theorem stream_val_sni_fix (new_sni : String) (ib : JVal) :
    stream_val (sni_fix new_sni ib)
      = jobj (setField (stream_val ib).olist "realitySettings"
          (jobj (setField (reality_val ib).olist "serverNames"
            (jarr [.str new_sni])))) := by
  simp [stream_val, sni_fix, jobj_olist, lookup_setField_eq]

theorem reality_val_sni_fix (new_sni : String) (ib : JVal) :
    reality_val (sni_fix new_sni ib)
      = jobj (setField (reality_val ib).olist "serverNames" (jarr [.str new_sni])) := by
  rw [reality_val, stream_val_sni_fix]
  simp [jobj_olist, lookup_setField_eq]

theorem sni_fix_frame (new_sni : String) (ib : JVal) :
    inbound_stream_frame ib (sni_fix new_sni ib) := by
  refine ⟨?_, ?_, ?_⟩
  · intro k2 hk
    simp [sni_fix, jobj_olist, lookup_setField_ne _ _ _ _ hk]
  · intro k2 hk
    rw [stream_val_sni_fix]
    simp [jobj_olist, lookup_setField_ne _ _ _ _ hk]
  · intro k2 hk
    rw [reality_val_sni_fix]
    simp [jobj_olist, lookup_setField_ne _ _ _ _ hk]

/-- C7: every write performed by `add_user`, `remove_user` or `update_sni`
preserves all parts of the document the engine does not own — every top-level
field other than `inbounds` (outbounds, routing, protocol settings), every
inbound whose tag differs from the target, and, within the target inbound,
every field other than the one being mutated (`settings.clients` for the
user mutations, `streamSettings.realitySettings.serverNames` for the
transport parameter). -/
theorem store_mutations_frame :
    (∀ (w : JVal → Bool) (st : XrayConfigManager) (tag : String) (u e : JVal),
      st_wf st tag = true →
      doc_frame st (add_user w st tag u e).2 tag inbound_settings_frame) ∧
    (∀ (w : JVal → Bool) (st : XrayConfigManager) (tag : String) (u : JVal),
      st_wf st tag = true →
      doc_frame st (remove_user w st tag u).2 tag inbound_settings_frame) ∧
    (∀ (w : JVal → Bool) (st : XrayConfigManager) (tag new_sni : String),
      st_wf st tag = true →
      doc_frame st (update_sni w st new_sni tag).2 tag inbound_stream_frame) := by
  refine ⟨?_, ?_, ?_⟩
  · intro w st tag u e h
    obtain ⟨hdoc, ibv, hl, harr, hwf⟩ := st_wf_parts h
    obtain ⟨ib, hfm, hibwf⟩ := inbounds_wf_first_match hwf
    have htarget : target_inbound st tag = some ib := by
      rw [target_inbound, inbounds_of_eq hl, hfm]
    have hspec := add_user_spec w u e h htarget
    by_cases hd : has_id u (clients_of ib) = true
    · rw [if_pos hd] at hspec
      rw [hspec]
      exact Or.inl rfl
    · simp only [Bool.not_eq_true] at hd
      rw [hd] at hspec
      simp only [Bool.false_eq_true, if_false] at hspec
      by_cases hwr : w (add_write_doc st tag u e) = true
      · rw [if_pos hwr] at hspec
        rw [hspec]
        exact @doc_frame_write st tag (add_client_fix u e) inbound_settings_frame
          true h (fun ib2 _ => add_fix_frame u e ib2)
      · rw [if_neg hwr] at hspec
        rw [hspec]
        exact Or.inl rfl
  · intro w st tag u h
    obtain ⟨hdoc, ibv, hl, harr, hwf⟩ := st_wf_parts h
    obtain ⟨ib, hfm, hibwf⟩ := inbounds_wf_first_match hwf
    have htarget : target_inbound st tag = some ib := by
      rw [target_inbound, inbounds_of_eq hl, hfm]
    have hspec := remove_user_spec w u h htarget
    match hset : lookupField ib.olist "settings" with
    | none =>
        rw [hset] at hspec
        rw [hspec]
        exact Or.inl rfl
    | some sv =>
        rw [hset] at hspec
        by_cases hd : has_id u (clients_of ib) = true
        · rw [if_pos hd] at hspec
          by_cases hwr : w (remove_write_doc st tag u) = true
          · rw [if_pos hwr] at hspec
            rw [hspec]
            exact @doc_frame_write st tag (remove_client_fix u) inbound_settings_frame
              true h (fun ib2 _ => remove_fix_frame u ib2)
          · rw [if_neg hwr] at hspec
            rw [hspec]
            exact Or.inl rfl
        · simp only [Bool.not_eq_true] at hd
          rw [hd] at hspec
          simp only [Bool.false_eq_true, if_false] at hspec
          rw [hspec]
          exact Or.inl rfl
  · intro w st tag new_sni h
    obtain ⟨hdoc, ibv, hl, harr, hwf⟩ := st_wf_parts h
    obtain ⟨ib, hfm, hibwf⟩ := inbounds_wf_first_match hwf
    have htarget : target_inbound st tag = some ib := by
      rw [target_inbound, inbounds_of_eq hl, hfm]
    rcases update_sni_spec w new_sni h htarget with h3 | h3 | h3
    · rw [h3]
      exact Or.inl rfl
    · rw [h3]
      exact Or.inl rfl
    · rw [h3]
      exact @doc_frame_write st tag (sni_fix new_sni) inbound_stream_frame
        true h (fun ib2 _ => sni_fix_frame new_sni ib2)

/-- Witness for C7: the three frame statements applied to the concrete
scenario states (an add of `A`, a removal of `C`, and a server-name change). -/
theorem store_mutations_frame_witness :
    doc_frame scenario_st
      (add_user (fun _ => true) scenario_st "vless-in" (.str "A") (.str "A")).2
      "vless-in" inbound_settings_frame ∧
    doc_frame scenario_st
      (remove_user (fun _ => true) scenario_st "vless-in" (.str "C")).2
      "vless-in" inbound_settings_frame ∧
    doc_frame sni_demo_st
      (update_sni (fun _ => true) sni_demo_st "example.com" "vless-in").2
      "vless-in" inbound_stream_frame := by
  obtain ⟨h1, h2, h3⟩ := store_mutations_frame
  exact ⟨h1 (fun _ => true) scenario_st "vless-in" (.str "A") (.str "A") (by decide),
    h2 (fun _ => true) scenario_st "vless-in" (.str "C") (by decide),
    h3 (fun _ => true) sni_demo_st "vless-in" "example.com" (by decide)⟩
